import Mathlib

/-!
# BitMagic block kernels and allocator adapter: a shallow embedding

Source files embedded here:

* `src/src/bmsse_util.h` : the SSE2 block kernels (`sse2_xor_arr_2_mask`,
  `sse2_andnot_arr_2_mask`, `sse2_and_arr`, `sse2_or_arr`, `sse2_xor_arr`, `sse2_sub_arr`,
  `sse2_set_block`, `sse2_copy_block`, `sse2_invert_arr`, `sse2_gap_sum_arr`) and the
  lane helpers `sse2_and`, `sse2_or`, `sse2_xor`, `sse2_sub`;
* `src/src/bmalloc.h` and `src/lang-maps/libbm/src/bmcalloc.h` : `block_allocator`,
  `ptr_allocator` and the adapter `mem_alloc`.

## Conventions

* A buffer is a `List Nat` of machine words (`bm::word_t`, 32 bit) or of GAP
  entries (`bm::gap_word_t`, 16 bit).  A pointer is the offset of the pointed-to
  element from the first element of its buffer, counted in elements of the buffer.
  A `__m128i*` therefore advances by `4` word offsets per `++`.
* An access outside the buffer is a fault (`Fault.out_of_bounds`); C leaves it
  undefined.  The two pointer arguments marked `BMRESTRICT` live in two separate
  buffers.
* The first word of a word buffer sits at a 16-byte aligned address, as a block from the
  allocator does.  The aligned intrinsics `_mm_load_si128` and `_mm_store_si128` fault
  (`Fault.misaligned`) at a word offset that is not a multiple of 4; `_mm_loadu_si128`
  takes any offset.
* Every `do { ... } while (c)` loop is a function recursing on a fuel counter; the
  kernel itself supplies the fuel `end - start + 1`, more than the number of iterations
  the loop can make, and running out of it is an outcome of its own
  (`Fault.out_of_fuel`), distinct from a memory fault.
* `_mm_prefetch` and `_mm_sfence` have no effect on memory contents and are left out.
-/

namespace bm

/-- Outcome of an execution that does not return normally. -/
inductive Fault where
  | out_of_bounds
  | out_of_fuel
  | misaligned
deriving DecidableEq, Repr

deriving instance DecidableEq for Except

/-- The type `__m128i`, seen as four 32-bit lanes (lane 0 is the lowest address). -/
structure M128 where
  w0 : Nat
  w1 : Nat
  w2 : Nat
  w3 : Nat
deriving DecidableEq, Repr

/-- Intrinsic `_mm_load_si128(p)`: read the four words at offsets `p .. p+3`.  The address
must be 16-byte aligned: the word offset `p` must be a multiple of 4. -/
def _mm_load_si128 (mem : List Nat) (p : Nat) : Except Fault M128 :=
  if p + 4 ≤ mem.length then
    if p % 4 = 0 then
      .ok ⟨mem.getD p 0, mem.getD (p + 1) 0, mem.getD (p + 2) 0, mem.getD (p + 3) 0⟩
    else .error .misaligned
  else .error .out_of_bounds

/-- Intrinsic `_mm_store_si128(p, v)`: write the four words at offsets `p .. p+3`.  The
address must be 16-byte aligned: the word offset `p` must be a multiple of 4. -/
def _mm_store_si128 (mem : List Nat) (p : Nat) (v : M128) : Except Fault (List Nat) :=
  if p + 4 ≤ mem.length then
    if p % 4 = 0 then
      .ok ((((mem.set p v.w0).set (p + 1) v.w1).set (p + 2) v.w2).set (p + 3) v.w3)
    else .error .misaligned
  else .error .out_of_bounds

/-- Intrinsic `_mm_set_epi32(e3, e2, e1, e0)`: lane 0 receives the LAST argument. -/
def _mm_set_epi32 (e3 e2 e1 e0 : Nat) : M128 :=
  ⟨e0 % 2 ^ 32, e1 % 2 ^ 32, e2 % 2 ^ 32, e3 % 2 ^ 32⟩

/-- Intrinsic `_mm_and_si128(a, b)`: bitwise `a & b`. -/
def _mm_and_si128 (a b : M128) : M128 :=
  ⟨a.w0 &&& b.w0, a.w1 &&& b.w1, a.w2 &&& b.w2, a.w3 &&& b.w3⟩

/-- Intrinsic `_mm_or_si128(a, b)`: bitwise `a | b`. -/
def _mm_or_si128 (a b : M128) : M128 :=
  ⟨a.w0 ||| b.w0, a.w1 ||| b.w1, a.w2 ||| b.w2, a.w3 ||| b.w3⟩

/-- Intrinsic `_mm_xor_si128(a, b)`: bitwise `a ^ b`. -/
def _mm_xor_si128 (a b : M128) : M128 :=
  ⟨a.w0 ^^^ b.w0, a.w1 ^^^ b.w1, a.w2 ^^^ b.w2, a.w3 ^^^ b.w3⟩

/-- Complement of one 32-bit lane of a register, as the hardware computes it:
every one of the 32 bits is flipped. -/
def lane_not (x : Nat) : Nat := (x % 2 ^ 32) ^^^ 0xFFFFFFFF

/-- Intrinsic `_mm_andnot_si128(a, b)`: `(~a) & b`, the complement is on the FIRST
operand. -/
def _mm_andnot_si128 (a b : M128) : M128 :=
  ⟨lane_not a.w0 &&& b.w0, lane_not a.w1 &&& b.w1,
   lane_not a.w2 &&& b.w2, lane_not a.w3 &&& b.w3⟩

/-! ## `sse2_and_arr`, `sse2_or_arr`, `sse2_xor_arr`, `sse2_sub_arr` -/

/-- The `do ... while (src < src_end)` loop of `sse2_and_arr` (bmsse_util.h 130-154).
`D` is the buffer `dst` points into, `S` the one `src` points into. -/
def sse2_and_arr_loop :
    Nat → List Nat → List Nat → Nat → Nat → Nat → Except Fault (List Nat × List Nat)
  | 0, _, _, _, _, _ => .error .out_of_fuel
  | fuel + 1, D, S, dst, src, src_end => do
    let xmm1 ← _mm_load_si128 S src
    let src := src + 4
    let xmm2 ← _mm_load_si128 D dst
    let xmm1 := _mm_and_si128 xmm1 xmm2
    let D ← _mm_store_si128 D dst xmm1
    let dst := dst + 4
    let xmm1 ← _mm_load_si128 S src
    let src := src + 4
    let xmm2 ← _mm_load_si128 D dst
    let xmm1 := _mm_and_si128 xmm1 xmm2
    let D ← _mm_store_si128 D dst xmm1
    let dst := dst + 4
    let xmm1 ← _mm_load_si128 S src
    let src := src + 4
    let xmm2 ← _mm_load_si128 D dst
    let xmm1 := _mm_and_si128 xmm1 xmm2
    let D ← _mm_store_si128 D dst xmm1
    let dst := dst + 4
    let xmm1 ← _mm_load_si128 S src
    let src := src + 4
    let xmm2 ← _mm_load_si128 D dst
    let xmm1 := _mm_and_si128 xmm1 xmm2
    let D ← _mm_store_si128 D dst xmm1
    let dst := dst + 4
    if src < src_end then sse2_and_arr_loop fuel D S dst src src_end
    else pure (D, S)

/-- Kernel `sse2_and_arr(dst, src, src_end)`: returns the two buffers after the call. -/
def sse2_and_arr (D S : List Nat) (dst src src_end : Nat) :
    Except Fault (List Nat × List Nat) :=
  sse2_and_arr_loop (src_end - src + 1) D S dst src src_end

/-- The `do ... while (src < src_end)` loop of `sse2_or_arr` (bmsse_util.h 171-195). -/
def sse2_or_arr_loop :
    Nat → List Nat → List Nat → Nat → Nat → Nat → Except Fault (List Nat × List Nat)
  | 0, _, _, _, _, _ => .error .out_of_fuel
  | fuel + 1, D, S, dst, src, src_end => do
    let xmm1 ← _mm_load_si128 S src
    let src := src + 4
    let xmm2 ← _mm_load_si128 D dst
    let xmm1 := _mm_or_si128 xmm1 xmm2
    let D ← _mm_store_si128 D dst xmm1
    let dst := dst + 4
    let xmm1 ← _mm_load_si128 S src
    let src := src + 4
    let xmm2 ← _mm_load_si128 D dst
    let xmm1 := _mm_or_si128 xmm1 xmm2
    let D ← _mm_store_si128 D dst xmm1
    let dst := dst + 4
    let xmm1 ← _mm_load_si128 S src
    let src := src + 4
    let xmm2 ← _mm_load_si128 D dst
    let xmm1 := _mm_or_si128 xmm1 xmm2
    let D ← _mm_store_si128 D dst xmm1
    let dst := dst + 4
    let xmm1 ← _mm_load_si128 S src
    let src := src + 4
    let xmm2 ← _mm_load_si128 D dst
    let xmm1 := _mm_or_si128 xmm1 xmm2
    let D ← _mm_store_si128 D dst xmm1
    let dst := dst + 4
    if src < src_end then sse2_or_arr_loop fuel D S dst src src_end
    else pure (D, S)

/-- Kernel `sse2_or_arr(dst, src, src_end)`. -/
def sse2_or_arr (D S : List Nat) (dst src src_end : Nat) :
    Except Fault (List Nat × List Nat) :=
  sse2_or_arr_loop (src_end - src + 1) D S dst src src_end

/-- The `do ... while (src < src_end)` loop of `sse2_xor_arr` (bmsse_util.h 211-235). -/
def sse2_xor_arr_loop :
    Nat → List Nat → List Nat → Nat → Nat → Nat → Except Fault (List Nat × List Nat)
  | 0, _, _, _, _, _ => .error .out_of_fuel
  | fuel + 1, D, S, dst, src, src_end => do
    let xmm1 ← _mm_load_si128 S src
    let src := src + 4
    let xmm2 ← _mm_load_si128 D dst
    let xmm1 := _mm_xor_si128 xmm1 xmm2
    let D ← _mm_store_si128 D dst xmm1
    let dst := dst + 4
    let xmm1 ← _mm_load_si128 S src
    let src := src + 4
    let xmm2 ← _mm_load_si128 D dst
    let xmm1 := _mm_xor_si128 xmm1 xmm2
    let D ← _mm_store_si128 D dst xmm1
    let dst := dst + 4
    let xmm1 ← _mm_load_si128 S src
    let src := src + 4
    let xmm2 ← _mm_load_si128 D dst
    let xmm1 := _mm_xor_si128 xmm1 xmm2
    let D ← _mm_store_si128 D dst xmm1
    let dst := dst + 4
    let xmm1 ← _mm_load_si128 S src
    let src := src + 4
    let xmm2 ← _mm_load_si128 D dst
    let xmm1 := _mm_xor_si128 xmm1 xmm2
    let D ← _mm_store_si128 D dst xmm1
    let dst := dst + 4
    if src < src_end then sse2_xor_arr_loop fuel D S dst src src_end
    else pure (D, S)

/-- Kernel `sse2_xor_arr(dst, src, src_end)`. -/
def sse2_xor_arr (D S : List Nat) (dst src src_end : Nat) :
    Except Fault (List Nat × List Nat) :=
  sse2_xor_arr_loop (src_end - src + 1) D S dst src src_end

/-- The `do ... while (src < src_end)` loop of `sse2_sub_arr` (bmsse_util.h 252-276). -/
def sse2_sub_arr_loop :
    Nat → List Nat → List Nat → Nat → Nat → Nat → Except Fault (List Nat × List Nat)
  | 0, _, _, _, _, _ => .error .out_of_fuel
  | fuel + 1, D, S, dst, src, src_end => do
    let xmm1 ← _mm_load_si128 S src
    let src := src + 4
    let xmm2 ← _mm_load_si128 D dst
    let xmm1 := _mm_andnot_si128 xmm1 xmm2
    let D ← _mm_store_si128 D dst xmm1
    let dst := dst + 4
    let xmm1 ← _mm_load_si128 S src
    let src := src + 4
    let xmm2 ← _mm_load_si128 D dst
    let xmm1 := _mm_andnot_si128 xmm1 xmm2
    let D ← _mm_store_si128 D dst xmm1
    let dst := dst + 4
    let xmm1 ← _mm_load_si128 S src
    let src := src + 4
    let xmm2 ← _mm_load_si128 D dst
    let xmm1 := _mm_andnot_si128 xmm1 xmm2
    let D ← _mm_store_si128 D dst xmm1
    let dst := dst + 4
    let xmm1 ← _mm_load_si128 S src
    let src := src + 4
    let xmm2 ← _mm_load_si128 D dst
    let xmm1 := _mm_andnot_si128 xmm1 xmm2
    let D ← _mm_store_si128 D dst xmm1
    let dst := dst + 4
    if src < src_end then sse2_sub_arr_loop fuel D S dst src src_end
    else pure (D, S)

/-- Kernel `sse2_sub_arr(dst, src, src_end)`. -/
def sse2_sub_arr (D S : List Nat) (dst src src_end : Nat) :
    Except Fault (List Nat × List Nat) :=
  sse2_sub_arr_loop (src_end - src + 1) D S dst src src_end

/-! ## `sse2_set_block`, `sse2_copy_block`, `sse2_invert_arr` -/

/-- The `do ... while (++dst < dst_end)` loop of `sse2_set_block` (bmsse_util.h 292-307);
the statements inside the comment block of the source are not compiled. -/
def sse2_set_block_loop : Nat → List Nat → Nat → Nat → M128 → Except Fault (List Nat)
  | 0, _, _, _, _ => .error .out_of_fuel
  | fuel + 1, D, dst, dst_end, xmm0 => do
    let D ← _mm_store_si128 D dst xmm0
    let dst := dst + 4
    if dst < dst_end then sse2_set_block_loop fuel D dst dst_end xmm0
    else pure D

/-- Kernel `sse2_set_block(dst, dst_end, value)`. -/
def sse2_set_block (D : List Nat) (dst dst_end value : Nat) : Except Fault (List Nat) :=
  let xmm0 := _mm_set_epi32 value value value value
  sse2_set_block_loop (dst_end - dst + 1) D dst dst_end xmm0

/-- The `do ... while (src < src_end)` loop of `sse2_copy_block` (bmsse_util.h 326-353). -/
def sse2_copy_block_loop :
    Nat → List Nat → List Nat → Nat → Nat → Nat → Except Fault (List Nat × List Nat)
  | 0, _, _, _, _, _ => .error .out_of_fuel
  | fuel + 1, D, S, dst, src, src_end => do
    let xmm0 ← _mm_load_si128 S (src + 4 * 0)
    let xmm1 ← _mm_load_si128 S (src + 4 * 1)
    let xmm2 ← _mm_load_si128 S (src + 4 * 2)
    let xmm3 ← _mm_load_si128 S (src + 4 * 3)
    let D ← _mm_store_si128 D (dst + 4 * 0) xmm0
    let D ← _mm_store_si128 D (dst + 4 * 1) xmm1
    let D ← _mm_store_si128 D (dst + 4 * 2) xmm2
    let D ← _mm_store_si128 D (dst + 4 * 3) xmm3
    let xmm0 ← _mm_load_si128 S (src + 4 * 4)
    let xmm1 ← _mm_load_si128 S (src + 4 * 5)
    let xmm2 ← _mm_load_si128 S (src + 4 * 6)
    let xmm3 ← _mm_load_si128 S (src + 4 * 7)
    let D ← _mm_store_si128 D (dst + 4 * 4) xmm0
    let D ← _mm_store_si128 D (dst + 4 * 5) xmm1
    let D ← _mm_store_si128 D (dst + 4 * 6) xmm2
    let D ← _mm_store_si128 D (dst + 4 * 7) xmm3
    let src := src + 4 * 8
    let dst := dst + 4 * 8
    if src < src_end then sse2_copy_block_loop fuel D S dst src src_end
    else pure (D, S)

/-- Kernel `sse2_copy_block(dst, src, src_end)`. -/
def sse2_copy_block (D S : List Nat) (dst src src_end : Nat) :
    Except Fault (List Nat × List Nat) :=
  sse2_copy_block_loop (src_end - src + 1) D S dst src src_end

/-- The `do ... while (wrd_ptr < last)` loop of `sse2_invert_arr` (bmsse_util.h 371-379). -/
def sse2_invert_arr_loop : Nat → List Nat → Nat → Nat → M128 → Except Fault (List Nat)
  | 0, _, _, _, _ => .error .out_of_fuel
  | fuel + 1, D, wrd_ptr, last, xmm1 => do
    let xmm0 ← _mm_load_si128 D wrd_ptr
    let xmm0 := _mm_xor_si128 xmm0 xmm1
    let D ← _mm_store_si128 D wrd_ptr xmm0
    let wrd_ptr := wrd_ptr + 4
    if wrd_ptr < last then sse2_invert_arr_loop fuel D wrd_ptr last xmm1
    else pure D

/-- Kernel `sse2_invert_arr(first, last)`; both arguments are word pointers. -/
def sse2_invert_arr (D : List Nat) (first last : Nat) : Except Fault (List Nat) :=
  let xmm1 := _mm_set_epi32 0xFFFFFFFF 0xFFFFFFFF 0xFFFFFFFF 0xFFFFFFFF
  let wrd_ptr := first
  sse2_invert_arr_loop (last - wrd_ptr + 1) D wrd_ptr last xmm1

/-! ## `sse2_gap_sum_arr` -/

/-- The type `__m128i` seen as eight 16-bit lanes: lane `j` for `j < 8`, lane 0 at the
lowest address. -/
abbrev M128x16 := Nat → Nat

/-- Intrinsic `_mm_setzero_si128()`. -/
def _mm_setzero_si128 : M128x16 := fun _ => 0

/-- Intrinsic `_mm_loadu_si128(p)` on a buffer of 16-bit entries: read the eight entries
at offsets `p .. p+7`.  The offset is an integer because the kernel computes `pbuf - 1`. -/
def _mm_loadu_si128 (mem : List Nat) (p : Int) : Except Fault M128x16 :=
  if 0 ≤ p ∧ p + 8 ≤ mem.length then
    .ok (fun j => if j < 8 then mem.getD (p.toNat + j) 0 else 0)
  else .error .out_of_bounds

/-- Intrinsic `_mm_add_epi16(a, b)`: lane-wise sum modulo `2^16`. -/
def _mm_add_epi16 (a b : M128x16) : M128x16 := fun j => (a j + b j) % 2 ^ 16

/-- Intrinsic `_mm_sub_epi16(a, b)`: lane-wise `a - b` modulo `2^16`. -/
def _mm_sub_epi16 (a b : M128x16) : M128x16 :=
  fun j => (a j % 2 ^ 16 + 2 ^ 16 - b j % 2 ^ 16) % 2 ^ 16

/-- The 32-bit lane `k` (`k < 4`) of a register given by its 16-bit lanes. -/
def epi32_lane (a : M128x16) (k : Nat) : Nat :=
  a (2 * k) % 2 ^ 16 + 2 ^ 16 * (a (2 * k + 1) % 2 ^ 16)

/-- Intrinsic `_mm_srli_epi32(a, count)`: every 32-bit lane is shifted right by `count`
bits, zeros come in; the result is given by its 16-bit lanes. -/
def _mm_srli_epi32 (a : M128x16) (count : Nat) : M128x16 :=
  fun j =>
    let v := (epi32_lane a (j / 2)) >>> count
    if j % 2 = 0 then v % 2 ^ 16 else (v >>> 16) % 2 ^ 16

/-- The `for (i = 0; i < sse_vect_waves; ++i)` loop of `sse2_gap_sum_arr`
(bmsse_util.h 425-432); the first argument is the number of iterations still to run,
`sse_vect_waves - i`. -/
def sse2_gap_sum_arr_loop : Nat → List Nat → M128x16 → Nat → Except Fault (M128x16 × Nat)
  | 0, _, xcnt, pbuf => pure (xcnt, pbuf)
  | waves + 1, buf, xcnt, pbuf => do
    let mm0 ← _mm_loadu_si128 buf ((pbuf : Int) - 1)
    let mm1 ← _mm_loadu_si128 buf ((pbuf : Int) + 8 - 1)
    let mm_s2 := _mm_add_epi16 mm1 mm0
    let xcnt := _mm_add_epi16 xcnt mm_s2
    let pbuf := pbuf + 16
    sse2_gap_sum_arr_loop waves buf xcnt pbuf

/-- Kernel `sse2_gap_sum_arr(pbuf, sse_vect_waves, sum)`: returns the tail pointer and
the new value of `*sum` (an `unsigned`, so the addition is modulo `2^32`). -/
def sse2_gap_sum_arr (buf : List Nat) (pbuf sse_vect_waves sum : Nat) :
    Except Fault (Nat × Nat) := do
  let xcnt := _mm_setzero_si128
  let (xcnt, pbuf) ← sse2_gap_sum_arr_loop sse_vect_waves buf xcnt pbuf
  let xcnt := _mm_sub_epi16 (_mm_srli_epi32 xcnt 16) xcnt
  let cnt8 := xcnt
  let sum := (sum + (cnt8 0 + cnt8 2 + cnt8 4 + cnt8 6)) % 2 ^ 32
  pure (pbuf, sum)

/-- Bit `x` of the expanded bit array described by the run-end entries
`p[s-1], p[s], ...`: it is set when `x` lies in one of the first `runs` half-open
intervals `(p[s+2m-1], p[s+2m]]`. -/
def gap_bit (p : List Nat) (s runs x : Nat) : Bool :=
  (List.range runs).any fun m => decide (p.getD (s + 2 * m - 1) 0 < x ∧ x ≤ p.getD (s + 2 * m) 0)

/-- The expanded bit array (one bit block, `2^16` bit positions). -/
def gap_expand (p : List Nat) (s runs : Nat) : List Bool :=
  (List.range (2 ^ 16)).map (gap_bit p s runs)

/-- Scalar population count of a bit array. -/
def bit_count (bits : List Bool) : Nat := bits.count true

/-- The sum of the run lengths `p[s+2m] - p[s+2m-1]` over `m < runs`. -/
def gap_run_sum (p : List Nat) (s runs : Nat) : Nat :=
  ((List.range runs).map fun m => p.getD (s + 2 * m) 0 - p.getD (s + 2 * m - 1) 0).sum

/-! ## Sizing of GAP blocks in `mem_alloc` -/

/-- Modelled from the spec: `sizeof(bm::word_t)`, the typedef is not part of the
sources at hand; the word is the 32-bit unit. -/
def sizeof_word_t : Nat := 4

/-- Modelled from the spec: `sizeof(bm::gap_word_t)`, the typedef is not part of the
sources at hand; one word holds two 16-bit run entries. -/
def sizeof_gap_word_t : Nat := 2

/-- The local `len` of `mem_alloc::alloc_gap_block` (bmalloc.h 199-200, bmcalloc.h
129-130), the word count handed to `block_alloc_.allocate`.  The table is read at
`level`; the quotient fits an `unsigned`, the cast changes nothing for 16-bit entries
and is kept as a reduction modulo `2^32`. -/
def alloc_gap_block_len (level : Nat) (glevel_len : List Nat) : Except Fault Nat :=
  if level < glevel_len.length then
    .ok ((glevel_len.getD level 0 / (sizeof_word_t / sizeof_gap_word_t)) % 2 ^ 32)
  else .error .out_of_bounds

/-! ## `block_allocator`, `ptr_allocator` (bmalloc.h, bmcalloc.h) -/

/-- The build the allocator is compiled for: the preprocessor symbols it tests and the
width of `size_t`. -/
structure Build where
  BMSSE2OPT : Bool
  BMSSE42OPT : Bool
  BMAVX2OPT : Bool
  _MSC_VER : Bool
  size_t_bits : Nat
deriving DecidableEq, Repr

/-- Macro `BM_ALLOC_ALIGN` (bmalloc.h 27-32, bmcalloc.h 29-34): `none` when it is not
defined; the second `#define` comes last and decides when both groups are set. -/
def BM_ALLOC_ALIGN (b : Build) : Option Nat :=
  if b.BMAVX2OPT then some 32
  else if b.BMSSE2OPT || b.BMSSE42OPT then some 16
  else none

/-- The allocation functions of the C runtime at the moment of the call.  An address is a
natural number, `0` is the null pointer; the arguments are the byte size and, for the
aligned variants, the alignment. -/
structure SysAlloc where
  malloc : Nat → Nat
  _mm_malloc : Nat → Nat → Nat
  _aligned_malloc : Nat → Nat → Nat

/-- The out-of-memory failures: `std::bad_alloc` thrown by namespace `bm`, and
`BM_ERR_BADALLOC` raised through `BM_THROW` by namespace `libbm`. -/
inductive AllocFailure where
  | bad_alloc
  | BM_ERR_BADALLOC
deriving DecidableEq, Repr

/-- The value the local `ptr` of `block_allocator::allocate` receives from the runtime
(bmalloc.h 62-70, bmcalloc.h 44-52); `n * sizeof(bm::word_t)` is `size_t` arithmetic. -/
def block_allocator.system_ptr (b : Build) (sys : SysAlloc) (n : Nat) : Nat :=
  match BM_ALLOC_ALIGN b with
  | some align =>
    if b._MSC_VER then sys._aligned_malloc (n * sizeof_word_t % 2 ^ b.size_t_bits) align
    else sys._mm_malloc (n * sizeof_word_t % 2 ^ b.size_t_bits) align
  | none => sys.malloc (n * sizeof_word_t % 2 ^ b.size_t_bits)

/-- The success-or-throw relation between the result `r` of an allocate function and the
`answer` of the runtime function it called: `r` is the failure `failure` exactly when the
answer is null, and `r` is a normal return of `p` exactly when the answer is `p` and `p` is
not null. -/
def success_or_throw (r : Except AllocFailure Nat) (failure : AllocFailure) (answer : Nat) :
    Prop :=
  (r = .error failure ↔ answer = 0) ∧ ∀ p, r = .ok p ↔ answer = p ∧ p ≠ 0

/-- Function `bm::block_allocator::allocate(n, 0)` (bmalloc.h 58-77). -/
def block_allocator.allocate (b : Build) (sys : SysAlloc) (n : Nat) :
    Except AllocFailure Nat :=
  let ptr := block_allocator.system_ptr b sys n
  if ptr = 0 then .error .bad_alloc
  else .ok ptr

/-- The value the local `ptr` of `ptr_allocator::allocate` receives from the runtime
(bmalloc.h 115, bmcalloc.h 80); `sizeof(void*)` is the byte width of `size_t`. -/
def ptr_allocator.system_ptr (b : Build) (sys : SysAlloc) (n : Nat) : Nat :=
  sys.malloc (n * (b.size_t_bits / 8) % 2 ^ b.size_t_bits)

/-- Function `bm::ptr_allocator::allocate(n, 0)` (bmalloc.h 113-121). -/
def ptr_allocator.allocate (b : Build) (sys : SysAlloc) (n : Nat) :
    Except AllocFailure Nat :=
  let ptr := ptr_allocator.system_ptr b sys n
  if ptr = 0 then .error .bad_alloc
  else .ok ptr

/-- Function `libbm::block_allocator::allocate(n, 0)` (bmcalloc.h 41-58).  Modelled from
the spec: the macro `BM_THROW` is not part of the sources at hand; it raises the catchable
out-of-memory failure and does not return. -/
def libbm.block_allocator.allocate (b : Build) (sys : SysAlloc) (n : Nat) :
    Except AllocFailure Nat :=
  let ptr := block_allocator.system_ptr b sys n
  if ptr = 0 then .error .BM_ERR_BADALLOC
  else .ok ptr

/-- Function `libbm::ptr_allocator::allocate(n, 0)` (bmcalloc.h 78-86), with `BM_THROW` as
in `libbm.block_allocator.allocate`. -/
def libbm.ptr_allocator.allocate (b : Build) (sys : SysAlloc) (n : Nat) :
    Except AllocFailure Nat :=
  let ptr := ptr_allocator.system_ptr b sys n
  if ptr = 0 then .error .BM_ERR_BADALLOC
  else .ok ptr

/-! ## The adapter `mem_alloc<BA, PA>` (bmalloc.h 140-234, bmcalloc.h 94-156)

An allocator object is a value of the type parameter; a member function of the allocator
that the adapter calls is passed as a function: `allocate` maps the object and the count to
whatever the call produces, `deallocate` maps the object, the pointer and the count to the
object after the call. -/

/-- The data members of `mem_alloc<BA, PA>`. -/
structure mem_alloc (BA PA : Type) where
  block_alloc_ : BA
  ptr_alloc_ : PA
deriving DecidableEq, Repr

/-- Member `get_block_allocator()`, `return BA(block_alloc_);` (bmalloc.h 155-158);
`BA_from_BA` is the copy constructor of `BA`. -/
def mem_alloc.get_block_allocator {BA PA : Type} (BA_from_BA : BA → BA) (m : mem_alloc BA PA) :
    BA :=
  BA_from_BA m.block_alloc_

/-- Member `get_ptr_allocator()`, `return PA(block_alloc_);` (bmalloc.h 162-165, bmcalloc.h
111-114); `PA_from_BA` is the constructor of `PA` that takes a `BA`. -/
def mem_alloc.get_ptr_allocator {BA PA : Type} (PA_from_BA : BA → PA) (m : mem_alloc BA PA) :
    PA :=
  PA_from_BA m.block_alloc_

/-- Modelled from the spec: the constant `bm::set_block_size` is not part of the sources at
hand; a bit block is 2048 words, `2^16` bits. -/
def set_block_size : Nat := 2048

/-- The argument `bm::set_block_size * alloc_factor` of `alloc_bit_block` and
`free_bit_block` (bmalloc.h 176, 184).  `alloc_factor` is an `unsigned`, so the product is
computed modulo `2 ^ prod_bits`, where `prod_bits ≥ 32` is the width of the common type of
the two operands: 32 when `set_block_size` is declared `unsigned` or narrower. -/
def bit_block_len (prod_bits alloc_factor : Nat) : Nat :=
  (set_block_size * (alloc_factor % 2 ^ 32)) % 2 ^ prod_bits

/-- Member `alloc_bit_block(alloc_factor)` (bmalloc.h 174-177); the source gives
`alloc_factor` the default value 1. -/
def mem_alloc.alloc_bit_block {BA PA R : Type} (allocate : BA → Nat → R) (prod_bits : Nat)
    (m : mem_alloc BA PA) (alloc_factor : Nat) : R :=
  allocate m.block_alloc_ (bit_block_len prod_bits alloc_factor)

/-- Member `free_bit_block(block, alloc_factor)` (bmalloc.h 181-185); the source gives
`alloc_factor` the default value 1. -/
def mem_alloc.free_bit_block {BA PA : Type} (deallocate : BA → Nat → Nat → BA)
    (prod_bits : Nat) (m : mem_alloc BA PA) (block : Nat) (alloc_factor : Nat) :
    mem_alloc BA PA :=
  { m with block_alloc_ := deallocate m.block_alloc_ block (bit_block_len prod_bits alloc_factor) }

/-- Member `alloc_gap_block(level, glevel_len)` (bmalloc.h 195-203): the length is
`alloc_gap_block_len`. -/
def mem_alloc.alloc_gap_block {BA PA R : Type} (allocate : BA → Nat → R)
    (m : mem_alloc BA PA) (level : Nat) (glevel_len : List Nat) : Except Fault R :=
  (alloc_gap_block_len level glevel_len).map (allocate m.block_alloc_)

/-- The local `len` of `free_gap_block` (bmalloc.h 212-213) after the division.  The
function `gap_capacity` is not part of the sources at hand: `capacity` is the value it
returns for the block and the table. -/
def free_gap_block_len (capacity : Nat) : Nat :=
  let len := capacity % 2 ^ 32
  len / ((sizeof_word_t / sizeof_gap_word_t) % 2 ^ 32)

/-- Member `free_gap_block(block, glevel_len)` (bmalloc.h 207-215), with the value of
`gap_capacity(block, glevel_len)` as an argument. -/
def mem_alloc.free_gap_block {BA PA : Type} (deallocate : BA → Nat → Nat → BA)
    (m : mem_alloc BA PA) (block capacity : Nat) : mem_alloc BA PA :=
  { m with block_alloc_ := deallocate m.block_alloc_ block (free_gap_block_len capacity) }

/-- Member `free_ptr(p, size)` (bmalloc.h 226-230): `if (p) ptr_alloc_.deallocate(p, size);`. -/
def mem_alloc.free_ptr {BA PA : Type} (deallocate : PA → Nat → Nat → PA)
    (m : mem_alloc BA PA) (p size : Nat) : mem_alloc BA PA :=
  if p ≠ 0 then { m with ptr_alloc_ := deallocate m.ptr_alloc_ p size }
  else m

/-! ## `sse2_xor_arr_2_mask`, `sse2_andnot_arr_2_mask` -/

/-- The `do ... while (src < src_end)` loop of `sse2_xor_arr_2_mask` (bmsse_util.h 77-86). -/
def sse2_xor_arr_2_mask_loop :
    Nat → List Nat → List Nat → Nat → Nat → Nat → M128 → Except Fault (List Nat × List Nat)
  | 0, _, _, _, _, _, _ => .error .out_of_fuel
  | fuel + 1, D, S, dst, src, src_end, xmm2 => do
    let xmm1 ← _mm_load_si128 S src
    let xmm1 := _mm_xor_si128 xmm1 xmm2
    let D ← _mm_store_si128 D dst xmm1
    let dst := dst + 4
    let src := src + 4
    if src < src_end then sse2_xor_arr_2_mask_loop fuel D S dst src src_end xmm2
    else pure (D, S)

/-- Kernel `sse2_xor_arr_2_mask(dst, src, src_end, mask)`. -/
def sse2_xor_arr_2_mask (D S : List Nat) (dst src src_end mask : Nat) :
    Except Fault (List Nat × List Nat) :=
  let xmm2 := _mm_set_epi32 mask mask mask mask
  sse2_xor_arr_2_mask_loop (src_end - src + 1) D S dst src src_end xmm2

/-- The `do ... while (src < src_end)` loop of `sse2_andnot_arr_2_mask`
(bmsse_util.h 103-115). -/
def sse2_andnot_arr_2_mask_loop :
    Nat → List Nat → List Nat → Nat → Nat → Nat → M128 → Except Fault (List Nat × List Nat)
  | 0, _, _, _, _, _, _ => .error .out_of_fuel
  | fuel + 1, D, S, dst, src, src_end, xmm2 => do
    let xmm1 ← _mm_load_si128 S src
    let xmm1 := _mm_andnot_si128 xmm1 xmm2
    let D ← _mm_store_si128 D dst xmm1
    let dst := dst + 4
    let src := src + 4
    if src < src_end then sse2_andnot_arr_2_mask_loop fuel D S dst src src_end xmm2
    else pure (D, S)

/-- Kernel `sse2_andnot_arr_2_mask(dst, src, src_end, mask)`. -/
def sse2_andnot_arr_2_mask (D S : List Nat) (dst src src_end mask : Nat) :
    Except Fault (List Nat × List Nat) :=
  let xmm2 := _mm_set_epi32 mask mask mask mask
  sse2_andnot_arr_2_mask_loop (src_end - src + 1) D S dst src src_end xmm2

/-! ## Scalar reference of the kernel table -/

/-- Scalar AND of the kernel table of the specification: `dst[i] &= src[i]`. -/
def scalar_and (dst src : List Nat) : List Nat := List.zipWith (fun d s => d &&& s) dst src

/-- Scalar OR of the kernel table of the specification: `dst[i] |= src[i]`. -/
def scalar_or (dst src : List Nat) : List Nat := List.zipWith (fun d s => d ||| s) dst src

/-- Scalar XOR of the kernel table of the specification: `dst[i] ^= src[i]`. -/
def scalar_xor (dst src : List Nat) : List Nat := List.zipWith (fun d s => d ^^^ s) dst src

/-- Scalar AND-NOT of the kernel table of the specification: `dst[i] &= ~src[i]`, the
complement taken on 32 bits. -/
def scalar_sub (dst src : List Nat) : List Nat :=
  List.zipWith (fun d s => d &&& (0xFFFFFFFF - s)) dst src

/-- Scalar copy of the kernel table of the specification: verbatim word copy. -/
def scalar_copy (dst src : List Nat) : List Nat := List.zipWith (fun _ s => s) dst src

/-- The exact (unbounded) sum that lane `j` of the accumulator `xcnt` of
`sse2_gap_sum_arr` collects over `waves` iterations when the first load starts at
entry `q`. -/
def lane_total (p : List Nat) : Nat → Nat → Nat → Nat
  | 0, _, _ => 0
  | waves + 1, q, j => p.getD (q + 8 + j) 0 + p.getD (q + j) 0 + lane_total p waves (q + 16) j

/-! ## Auxiliary definitions of the proofs, memory lemmas -/

/-- Relation between a buffer `D` and the buffer `D'` obtained by replacing every word
`i` with `a ≤ i < b` by `f (S[i]) (D[i])` and keeping all other words. -/
def Upd (f : Nat → Nat → Nat) (D S : List Nat) (a b : Nat) (D' : List Nat) : Prop :=
  D'.length = D.length ∧
    ∀ i, D'.getD i 0 = if a ≤ i ∧ i < b then f (S.getD i 0) (D.getD i 0) else D.getD i 0

/-- Lane-wise application of a word operation to two registers. -/
def M128.map2 (f : Nat → Nat → Nat) (a b : M128) : M128 :=
  ⟨f a.w0 b.w0, f a.w1 b.w1, f a.w2 b.w2, f a.w3 b.w3⟩

/-- One load-load-combine-store group of the two-operand kernels. -/
def lane_step (op : M128 → M128 → M128) (D S : List Nat) (dst src : Nat) :
    Except Fault (List Nat) := do
  let xmm1 ← _mm_load_si128 S src
  let xmm2 ← _mm_load_si128 D dst
  _mm_store_si128 D dst (op xmm1 xmm2)

/-- The common shape of the loops of `sse2_and_arr`, `sse2_or_arr`, `sse2_xor_arr` and
`sse2_sub_arr`: four groups per iteration. -/
def binop_loop (op : M128 → M128 → M128) :
    Nat → List Nat → List Nat → Nat → Nat → Nat → Except Fault (List Nat × List Nat)
  | 0, _, _, _, _, _ => .error .out_of_fuel
  | fuel + 1, D, S, dst, src, src_end => do
    let D ← lane_step op D S dst src
    let D ← lane_step op D S (dst + 4) (src + 4)
    let D ← lane_step op D S (dst + 4 + 4) (src + 4 + 4)
    let D ← lane_step op D S (dst + 4 + 4 + 4) (src + 4 + 4 + 4)
    if src + 4 + 4 + 4 + 4 < src_end then
      binop_loop op fuel D S (dst + 4 + 4 + 4 + 4) (src + 4 + 4 + 4 + 4) src_end
    else pure (D, S)

/-- What `sse2_gap_sum_arr` adds to `*sum`, written with the exact lane totals: the four
differences "odd lane minus even lane", each taken modulo `2^16`. -/
def gap_fold (p : List Nat) (w q : Nat) : Nat :=
  (lane_total p w q 1 % 65536 + 65536 - lane_total p w q 0 % 65536) % 65536
    + (lane_total p w q 3 % 65536 + 65536 - lane_total p w q 2 % 65536) % 65536
    + (lane_total p w q 5 % 65536 + 65536 - lane_total p w q 4 % 65536) % 65536
    + (lane_total p w q 7 % 65536 + 65536 - lane_total p w q 6 % 65536) % 65536

/-- The common shape of the loops of `sse2_xor_arr_2_mask` and `sse2_andnot_arr_2_mask`:
one lane per iteration, combined with the broadcast register `xmm2`. -/
def mask_loop (op : M128 → M128 → M128) :
    Nat → List Nat → List Nat → Nat → Nat → Nat → M128 → Except Fault (List Nat × List Nat)
  | 0, _, _, _, _, _, _ => .error .out_of_fuel
  | fuel + 1, D, S, dst, src, src_end, xmm2 => do
    let xmm1 ← _mm_load_si128 S src
    let D ← _mm_store_si128 D dst (op xmm1 xmm2)
    if src + 4 < src_end then mask_loop op fuel D S (dst + 4) (src + 4) src_end xmm2
    else pure (D, S)

/-- Helper `sse2_and(a, b)` (bmsse_util.h 382-386). -/
def sse2_and (a b : M128) : M128 := _mm_and_si128 a b

/-- Helper `sse2_or(a, b)` (bmsse_util.h 388-392). -/
def sse2_or (a b : M128) : M128 := _mm_or_si128 a b

/-- Helper `sse2_xor(a, b)` (bmsse_util.h 395-399). -/
def sse2_xor (a b : M128) : M128 := _mm_xor_si128 a b

/-- Helper `sse2_sub(a, b)` (bmsse_util.h 401-405): `_mm_andnot_si128(b, a)`, the operands
are swapped. -/
def sse2_sub (a b : M128) : M128 := _mm_andnot_si128 b a

/-- Contract of the aligned allocation functions of the runtime, `_mm_malloc(size, align)`
and `_aligned_malloc(size, align)`: the address they return is null or a multiple of
`align`. -/
def SysAlloc.honors_alignment (sys : SysAlloc) : Prop :=
  ∀ size align, sys._mm_malloc size align % align = 0 ∧
    sys._aligned_malloc size align % align = 0

theorem ok_bind {α β : Type} (a : α) (g : α → Except Fault β) :
    ((Except.ok a : Except Fault α) >>= g) = g a := rfl

theorem getD_set_eq (l : List Nat) (i j a : Nat) :
    (l.set i a).getD j 0 = if i = j ∧ i < l.length then a else l.getD j 0 := by
  simp only [List.getD_eq_getElem?_getD, List.getElem?_set]
  by_cases h : i = j
  · subst h
    by_cases h2 : i < l.length
    · simp [h2]
    · simp [h2, List.getElem?_eq_none (Nat.le_of_not_lt h2)]
  · simp [h]

theorem load_ok (mem : List Nat) (p : Nat) (h : p + 4 ≤ mem.length) (ha : p % 4 = 0) :
    _mm_load_si128 mem p
      = .ok ⟨mem.getD p 0, mem.getD (p + 1) 0, mem.getD (p + 2) 0, mem.getD (p + 3) 0⟩ := by
  simp [_mm_load_si128, h, ha]

theorem store_ok (mem : List Nat) (p : Nat) (v : M128) (h : p + 4 ≤ mem.length)
    (ha : p % 4 = 0) :
    ∃ m, _mm_store_si128 mem p v = .ok m ∧ m.length = mem.length ∧
      ∀ i, m.getD i 0 =
        if i = p then v.w0 else if i = p + 1 then v.w1 else if i = p + 2 then v.w2
        else if i = p + 3 then v.w3 else mem.getD i 0 := by
  refine ⟨_, by simp [_mm_store_si128, h, ha]; rfl, by simp, ?_⟩
  intro i
  simp only [getD_set_eq, List.length_set]
  split_ifs <;> first | rfl | omega

theorem Upd.trans {f : Nat → Nat → Nat} {D S D1 D2 : List Nat} {a b c : Nat}
    (h1 : Upd f D S a b D1) (h2 : Upd f D1 S b c D2) (hab : a ≤ b) (hbc : b ≤ c) :
    Upd f D S a c D2 := by
  refine ⟨h2.1.trans h1.1, fun i => ?_⟩
  rw [h2.2 i, h1.2 i]
  split_ifs <;> first | rfl | omega

theorem Upd.refl (f : Nat → Nat → Nat) (D S : List Nat) (a : Nat) : Upd f D S a a D :=
  ⟨rfl, fun i => by
    have : ¬ (a ≤ i ∧ i < a) := by omega
    simp [this]⟩

theorem list_ext_getD {l1 l2 : List Nat} (hl : l1.length = l2.length)
    (h : ∀ i, i < l1.length → l1.getD i 0 = l2.getD i 0) : l1 = l2 := by
  apply List.ext_getElem hl
  intro i h1 h2
  have := h i h1
  simpa [List.getD_eq_getElem?_getD, List.getElem?_eq_getElem h1,
    List.getElem?_eq_getElem h2] using this

/-! ## The four two-operand kernels share one loop shape -/

theorem sse2_and_arr_loop_eq (fuel : Nat) (D S : List Nat) (dst src src_end : Nat) :
    sse2_and_arr_loop fuel D S dst src src_end
      = binop_loop _mm_and_si128 fuel D S dst src src_end := by
  induction fuel generalizing D S dst src with
  | zero => rfl
  | succ n ih => simp [sse2_and_arr_loop, binop_loop, lane_step, ih]

theorem sse2_or_arr_loop_eq (fuel : Nat) (D S : List Nat) (dst src src_end : Nat) :
    sse2_or_arr_loop fuel D S dst src src_end
      = binop_loop _mm_or_si128 fuel D S dst src src_end := by
  induction fuel generalizing D S dst src with
  | zero => rfl
  | succ n ih => simp [sse2_or_arr_loop, binop_loop, lane_step, ih]

theorem sse2_xor_arr_loop_eq (fuel : Nat) (D S : List Nat) (dst src src_end : Nat) :
    sse2_xor_arr_loop fuel D S dst src src_end
      = binop_loop _mm_xor_si128 fuel D S dst src src_end := by
  induction fuel generalizing D S dst src with
  | zero => rfl
  | succ n ih => simp [sse2_xor_arr_loop, binop_loop, lane_step, ih]

theorem sse2_sub_arr_loop_eq (fuel : Nat) (D S : List Nat) (dst src src_end : Nat) :
    sse2_sub_arr_loop fuel D S dst src src_end
      = binop_loop _mm_andnot_si128 fuel D S dst src src_end := by
  induction fuel generalizing D S dst src with
  | zero => rfl
  | succ n ih => simp [sse2_sub_arr_loop, binop_loop, lane_step, ih]

theorem lane_step_spec (f : Nat → Nat → Nat) (D S : List Nat) (p : Nat)
    (hD : p + 4 ≤ D.length) (hS : p + 4 ≤ S.length) (ha : p % 4 = 0) :
    ∃ D', lane_step (M128.map2 f) D S p p = .ok D' ∧ Upd f D S p (p + 4) D' := by
  obtain ⟨m, hm, hlen, hget⟩ := store_ok D p
    (M128.map2 f ⟨S.getD p 0, S.getD (p + 1) 0, S.getD (p + 2) 0, S.getD (p + 3) 0⟩
      ⟨D.getD p 0, D.getD (p + 1) 0, D.getD (p + 2) 0, D.getD (p + 3) 0⟩) hD ha
  refine ⟨m, ?_, hlen, fun i => ?_⟩
  · simp only [lane_step, load_ok S p hS ha, load_ok D p hD ha]
    exact hm
  · rw [hget i]
    simp only [M128.map2]
    split_ifs <;> first | rfl | omega | (subst_vars; rfl)

/-- One full iteration (four groups, 16 words) of the common loop, followed by any
continuation `K`. -/
theorem binop_iter_spec (f : Nat → Nat → Nat) (D S : List Nat) (p : Nat)
    (hD : p + 16 ≤ D.length) (hS : p + 16 ≤ S.length) (ha : p % 4 = 0) :
    ∃ D', Upd f D S p (p + 16) D' ∧
      ∀ (K : List Nat → Except Fault (List Nat × List Nat)), (do
        let D ← lane_step (M128.map2 f) D S p p
        let D ← lane_step (M128.map2 f) D S (p + 4) (p + 4)
        let D ← lane_step (M128.map2 f) D S (p + 4 + 4) (p + 4 + 4)
        let D ← lane_step (M128.map2 f) D S (p + 4 + 4 + 4) (p + 4 + 4 + 4)
        K D) = K D' := by
  obtain ⟨D1, e1, u1⟩ := lane_step_spec f D S p (by omega) (by omega) ha
  obtain ⟨D2, e2, u2⟩ := lane_step_spec f D1 S (p + 4) (by rw [u1.1]; omega) (by omega)
    (by omega)
  obtain ⟨D3, e3, u3⟩ := lane_step_spec f D2 S (p + 4 + 4)
    (by rw [u2.1, u1.1]; omega) (by omega) (by omega)
  obtain ⟨D4, e4, u4⟩ := lane_step_spec f D3 S (p + 4 + 4 + 4)
    (by rw [u3.1, u2.1, u1.1]; omega) (by omega) (by omega)
  refine ⟨D4, ?_, ?_⟩
  · have h := ((u1.trans u2 (by omega) (by omega)).trans u3 (by omega) (by omega)).trans u4
      (by omega) (by omega)
    have e : p + 4 + 4 + 4 + 4 = p + 16 := by omega
    rwa [e] at h
  · intro K
    rw [e1, ok_bind, e2, ok_bind, e3, ok_bind, e4, ok_bind]

/-- The common loop runs exactly `k + 1` iterations when `src_end` lies in the last of
them (or when `k = 0`: the body of a `do ... while` runs once whatever `src_end` is),
and then has combined the `16 * (k + 1)` words from `p` on. -/
theorem binop_loop_spec (f : Nat → Nat → Nat) (k : Nat) :
    ∀ (fuel : Nat) (D S : List Nat) (p e : Nat), k + 1 ≤ fuel →
      p + 16 * (k + 1) ≤ D.length → p + 16 * (k + 1) ≤ S.length →
      e ≤ p + 16 * (k + 1) → (k = 0 ∨ p + 16 * k < e) → p % 4 = 0 →
      ∃ D', binop_loop (M128.map2 f) fuel D S p p e = .ok (D', S) ∧
        Upd f D S p (p + 16 * (k + 1)) D' := by
  induction k with
  | zero =>
    intro fuel D S p e hf hD hS he _ ha
    obtain ⟨n, rfl⟩ : ∃ n, fuel = n + 1 := ⟨fuel - 1, by omega⟩
    obtain ⟨D1, u1, hK⟩ := binop_iter_spec f D S p (by omega) (by omega) ha
    refine ⟨D1, ?_, by simpa using u1⟩
    rw [binop_loop, hK]
    have : ¬ (p + 4 + 4 + 4 + 4 < e) := by omega
    simp [this]
    rfl
  | succ k ih =>
    intro fuel D S p e hf hD hS he hlo ha
    obtain ⟨n, rfl⟩ : ∃ n, fuel = n + 1 := ⟨fuel - 1, by omega⟩
    obtain ⟨D1, u1, hK⟩ := binop_iter_spec f D S p (by omega) (by omega) ha
    obtain ⟨D2, e2, u2⟩ := ih n D1 S (p + 16) e (by omega) (by rw [u1.1]; omega)
      (by omega) (by omega) (by omega) (by omega)
    refine ⟨D2, ?_, ?_⟩
    · rw [binop_loop, hK]
      have : p + 4 + 4 + 4 + 4 < e := by omega
      have e16 : p + 4 + 4 + 4 + 4 = p + 16 := by omega
      simp only [this, if_true, e16]
      exact e2
    · have h := u1.trans u2 (by omega) (by omega)
      have e16 : p + 16 + 16 * (k + 1) = p + 16 * (k + 1 + 1) := by omega
      rwa [e16] at h

/-- The common loop started at the beginning of both buffers with the fuel the kernels
supply: for `n` a positive multiple of 16 it combines exactly the words `0 .. n-1`. -/
theorem binop_kernel_spec (f : Nat → Nat → Nat) (D S : List Nat) (n : Nat)
    (hn : 0 < n) (h16 : n % 16 = 0) (hD : n ≤ D.length) (hS : n ≤ S.length) :
    ∃ D', binop_loop (M128.map2 f) (n - 0 + 1) D S 0 0 n = .ok (D', S) ∧ Upd f D S 0 n D' := by
  obtain ⟨k, rfl⟩ : ∃ k, n = 16 * (k + 1) := ⟨n / 16 - 1, by omega⟩
  obtain ⟨D', e, u⟩ := binop_loop_spec f k (16 * (k + 1) - 0 + 1) D S 0 (16 * (k + 1))
    (by omega) (by omega) (by omega) (by omega) (by omega) (by omega)
  exact ⟨D', e, by simpa using u⟩

theorem getD_lt_of_forall_mem {l : List Nat} {b : Nat} (h : ∀ x ∈ l, x < b) (hb : 0 < b)
    (i : Nat) : l.getD i 0 < b := by
  by_cases hi : i < l.length
  · rw [List.getD_eq_getElem l 0 hi]
    exact h _ (List.getElem_mem hi)
  · rw [List.getD_eq_default l 0 (Nat.le_of_not_lt hi)]
    exact hb

/-- Flipping the 32 bits of a 32-bit word is subtraction from `2^32 - 1`. -/
theorem lane_not_eq (x : Nat) (hx : x < 2 ^ 32) : lane_not x = 0xFFFFFFFF - x := by
  unfold lane_not
  rw [Nat.mod_eq_of_lt hx]
  apply Nat.eq_of_testBit_eq
  intro i
  have h1 : (0xFFFFFFFF : Nat) = 2 ^ 32 - 1 := by norm_num
  have h2 : (0xFFFFFFFF : Nat) - x = 2 ^ 32 - (x + 1) := by omega
  rw [Nat.testBit_xor, h2, Nat.testBit_two_pow_sub_succ hx, h1, Nat.testBit_two_pow_sub_one]
  by_cases hi : i < 32
  · simp [hi]
  · have : x.testBit i = false := by
      apply Nat.testBit_lt_two_pow
      calc x < 2 ^ 32 := hx
        _ ≤ 2 ^ i := Nat.pow_le_pow_right (by norm_num) (by omega)
    simp [hi, this]

/-! ## The two-operand kernels on whole arrays -/

/-- C2. `sse2_and_arr` computes the in-place AND: for word arrays `dst`, `src` of equal
length `n`, `n` a positive multiple of 16, the call `sse2_and_arr(dst, src, src + n)`
returns normally, leaves `src` as it was, and every word `i < n` of the new `dst` is
`old_dst[i] & src[i]`. -/
theorem sse2_and_arr_correct (dst src : List Nat) (n : Nat) (hn : 0 < n)
    (h16 : n % 16 = 0) (hd : dst.length = n) (hs : src.length = n) :
    ∃ dst', sse2_and_arr dst src 0 0 n = .ok (dst', src) ∧ dst'.length = n ∧
      ∀ i, i < n → dst'.getD i 0 = dst.getD i 0 &&& src.getD i 0 := by
  obtain ⟨D', e, u⟩ := binop_kernel_spec (fun s d => s &&& d) dst src n hn h16
    (by omega) (by omega)
  refine ⟨D', ?_, by rw [u.1, hd], fun i hi => ?_⟩
  · rw [sse2_and_arr, sse2_and_arr_loop_eq]
    exact e
  · rw [u.2 i, if_pos ⟨Nat.zero_le i, hi⟩]
    exact Nat.land_comm _ _

/-- Witness for C2 on a 16-word array. -/
theorem sse2_and_arr_correct_witness :
    ∃ dst', sse2_and_arr (List.range 16) (List.replicate 16 5) 0 0 16
        = .ok (dst', List.replicate 16 5) ∧ dst'.length = 16 ∧
      ∀ i, i < 16 → dst'.getD i 0
        = (List.range 16).getD i 0 &&& (List.replicate 16 5).getD i 0 :=
  sse2_and_arr_correct (List.range 16) (List.replicate 16 5) 16 (by decide) (by decide)
    (by decide) (by decide)

/-- C3. `sse2_or_arr` computes the in-place OR: for word arrays `dst`, `src` of equal
length `n`, `n` a positive multiple of 16, the call `sse2_or_arr(dst, src, src + n)`
returns normally, leaves `src` as it was, and every word `i < n` of the new `dst` is
`old_dst[i] | src[i]`. -/
theorem sse2_or_arr_correct (dst src : List Nat) (n : Nat) (hn : 0 < n)
    (h16 : n % 16 = 0) (hd : dst.length = n) (hs : src.length = n) :
    ∃ dst', sse2_or_arr dst src 0 0 n = .ok (dst', src) ∧ dst'.length = n ∧
      ∀ i, i < n → dst'.getD i 0 = dst.getD i 0 ||| src.getD i 0 := by
  obtain ⟨D', e, u⟩ := binop_kernel_spec (fun s d => s ||| d) dst src n hn h16
    (by omega) (by omega)
  refine ⟨D', ?_, by rw [u.1, hd], fun i hi => ?_⟩
  · rw [sse2_or_arr, sse2_or_arr_loop_eq]
    exact e
  · rw [u.2 i, if_pos ⟨Nat.zero_le i, hi⟩]
    exact Nat.lor_comm _ _

/-- Witness for C3 on a 16-word array. -/
theorem sse2_or_arr_correct_witness :
    ∃ dst', sse2_or_arr (List.range 16) (List.replicate 16 5) 0 0 16
        = .ok (dst', List.replicate 16 5) ∧ dst'.length = 16 ∧
      ∀ i, i < 16 → dst'.getD i 0
        = (List.range 16).getD i 0 ||| (List.replicate 16 5).getD i 0 :=
  sse2_or_arr_correct (List.range 16) (List.replicate 16 5) 16 (by decide) (by decide)
    (by decide) (by decide)

/-- C4. `sse2_xor_arr` computes the in-place XOR: for word arrays `dst`, `src` of equal
length `n`, `n` a positive multiple of 16, the call `sse2_xor_arr(dst, src, src + n)`
returns normally, leaves `src` as it was, and every word `i < n` of the new `dst` is
`old_dst[i] ^ src[i]`. -/
theorem sse2_xor_arr_correct (dst src : List Nat) (n : Nat) (hn : 0 < n)
    (h16 : n % 16 = 0) (hd : dst.length = n) (hs : src.length = n) :
    ∃ dst', sse2_xor_arr dst src 0 0 n = .ok (dst', src) ∧ dst'.length = n ∧
      ∀ i, i < n → dst'.getD i 0 = dst.getD i 0 ^^^ src.getD i 0 := by
  obtain ⟨D', e, u⟩ := binop_kernel_spec (fun s d => s ^^^ d) dst src n hn h16
    (by omega) (by omega)
  refine ⟨D', ?_, by rw [u.1, hd], fun i hi => ?_⟩
  · rw [sse2_xor_arr, sse2_xor_arr_loop_eq]
    exact e
  · rw [u.2 i, if_pos ⟨Nat.zero_le i, hi⟩]
    exact Nat.xor_comm _ _

/-- Witness for C4 on a 16-word array. -/
theorem sse2_xor_arr_correct_witness :
    ∃ dst', sse2_xor_arr (List.range 16) (List.replicate 16 5) 0 0 16
        = .ok (dst', List.replicate 16 5) ∧ dst'.length = 16 ∧
      ∀ i, i < 16 → dst'.getD i 0
        = (List.range 16).getD i 0 ^^^ (List.replicate 16 5).getD i 0 :=
  sse2_xor_arr_correct (List.range 16) (List.replicate 16 5) 16 (by decide) (by decide)
    (by decide) (by decide)

/-- C1. `sse2_sub_arr` computes AND-NOT with the NOT on `src`: for arrays `dst`, `src`
of 32-bit words and of equal length `n`, `n` a positive multiple of 16, the call
`sse2_sub_arr(dst, src, src + n)` returns normally, leaves `src` as it was, and every
word `i < n` of the new `dst` is `old_dst[i] & ~src[i]`, where the 32-bit complement
`~x` is `0xFFFFFFFF - x`. -/
theorem sse2_sub_arr_correct (dst src : List Nat) (n : Nat) (hn : 0 < n)
    (h16 : n % 16 = 0) (hd : dst.length = n) (hs : src.length = n)
    (hw : ∀ x ∈ src, x < 2 ^ 32) :
    ∃ dst', sse2_sub_arr dst src 0 0 n = .ok (dst', src) ∧ dst'.length = n ∧
      ∀ i, i < n → dst'.getD i 0 = dst.getD i 0 &&& (0xFFFFFFFF - src.getD i 0) := by
  obtain ⟨D', e, u⟩ := binop_kernel_spec (fun s d => lane_not s &&& d) dst src n hn h16
    (by omega) (by omega)
  refine ⟨D', ?_, by rw [u.1, hd], fun i hi => ?_⟩
  · rw [sse2_sub_arr, sse2_sub_arr_loop_eq]
    exact e
  · rw [u.2 i, if_pos ⟨Nat.zero_le i, hi⟩]
    show lane_not (src.getD i 0) &&& dst.getD i 0 = _
    rw [lane_not_eq _ (getD_lt_of_forall_mem hw (by norm_num) i)]
    exact Nat.land_comm _ _

/-- Witness for C1 on a 16-word array. -/
theorem sse2_sub_arr_correct_witness :
    ∃ dst', sse2_sub_arr (List.range 16) (List.replicate 16 5) 0 0 16
        = .ok (dst', List.replicate 16 5) ∧ dst'.length = 16 ∧
      ∀ i, i < 16 → dst'.getD i 0
        = (List.range 16).getD i 0 &&& (0xFFFFFFFF - (List.replicate 16 5).getD i 0) :=
  sse2_sub_arr_correct (List.range 16) (List.replicate 16 5) 16 (by decide) (by decide)
    (by decide) (by decide) (by decide)

/-! ## `sse2_copy_block` -/

theorem store_copy_spec (D S : List Nat) (q : Nat) (hD : q + 4 ≤ D.length)
    (ha : q % 4 = 0) :
    ∃ D', _mm_store_si128 D q
        ⟨S.getD q 0, S.getD (q + 1) 0, S.getD (q + 2) 0, S.getD (q + 3) 0⟩ = .ok D' ∧
      Upd (fun s _ => s) D S q (q + 4) D' := by
  obtain ⟨m, hm, hlen, hget⟩ := store_ok D q
    ⟨S.getD q 0, S.getD (q + 1) 0, S.getD (q + 2) 0, S.getD (q + 3) 0⟩ hD ha
  refine ⟨m, hm, hlen, fun i => ?_⟩
  rw [hget i]
  split_ifs <;> first | rfl | omega | (subst_vars; rfl)

/-- One iteration (eight lanes, 32 words) of the copy loop, followed by any
continuation `K`. -/
theorem copy_iter_spec (D S : List Nat) (p : Nat)
    (hD : p + 32 ≤ D.length) (hS : p + 32 ≤ S.length) (ha : p % 4 = 0) :
    ∃ D', Upd (fun s _ => s) D S p (p + 32) D' ∧
      ∀ (K : List Nat → Except Fault (List Nat × List Nat)), (do
        let xmm0 ← _mm_load_si128 S (p + 4 * 0)
        let xmm1 ← _mm_load_si128 S (p + 4 * 1)
        let xmm2 ← _mm_load_si128 S (p + 4 * 2)
        let xmm3 ← _mm_load_si128 S (p + 4 * 3)
        let D ← _mm_store_si128 D (p + 4 * 0) xmm0
        let D ← _mm_store_si128 D (p + 4 * 1) xmm1
        let D ← _mm_store_si128 D (p + 4 * 2) xmm2
        let D ← _mm_store_si128 D (p + 4 * 3) xmm3
        let xmm0 ← _mm_load_si128 S (p + 4 * 4)
        let xmm1 ← _mm_load_si128 S (p + 4 * 5)
        let xmm2 ← _mm_load_si128 S (p + 4 * 6)
        let xmm3 ← _mm_load_si128 S (p + 4 * 7)
        let D ← _mm_store_si128 D (p + 4 * 4) xmm0
        let D ← _mm_store_si128 D (p + 4 * 5) xmm1
        let D ← _mm_store_si128 D (p + 4 * 6) xmm2
        let D ← _mm_store_si128 D (p + 4 * 7) xmm3
        K D) = K D' := by
  obtain ⟨D0, e0, u0⟩ := store_copy_spec D S (p + 4 * 0) (by omega) (by omega)
  obtain ⟨D1, e1, u1⟩ := store_copy_spec D0 S (p + 4 * 1) (by rw [u0.1]; omega) (by omega)
  obtain ⟨D2, e2, u2⟩ := store_copy_spec D1 S (p + 4 * 2) (by rw [u1.1, u0.1]; omega) (by omega)
  obtain ⟨D3, e3, u3⟩ := store_copy_spec D2 S (p + 4 * 3)
    (by rw [u2.1, u1.1, u0.1]; omega) (by omega)
  obtain ⟨D4, e4, u4⟩ := store_copy_spec D3 S (p + 4 * 4)
    (by rw [u3.1, u2.1, u1.1, u0.1]; omega) (by omega)
  obtain ⟨D5, e5, u5⟩ := store_copy_spec D4 S (p + 4 * 5)
    (by rw [u4.1, u3.1, u2.1, u1.1, u0.1]; omega) (by omega)
  obtain ⟨D6, e6, u6⟩ := store_copy_spec D5 S (p + 4 * 6)
    (by rw [u5.1, u4.1, u3.1, u2.1, u1.1, u0.1]; omega) (by omega)
  obtain ⟨D7, e7, u7⟩ := store_copy_spec D6 S (p + 4 * 7)
    (by rw [u6.1, u5.1, u4.1, u3.1, u2.1, u1.1, u0.1]; omega) (by omega)
  refine ⟨D7, ?_, ?_⟩
  · have h := ((((((u0.trans u1 (by omega) (by omega)).trans u2 (by omega) (by omega)).trans
      u3 (by omega) (by omega)).trans u4 (by omega) (by omega)).trans u5 (by omega)
      (by omega)).trans u6 (by omega) (by omega)).trans u7 (by omega) (by omega)
    have e : p + 4 * 7 + 4 = p + 32 := by omega
    have e' : p + 4 * 0 = p := by omega
    rwa [e, e'] at h
  · intro K
    rw [load_ok S (p + 4 * 0) (by omega) (by omega), ok_bind, load_ok S (p + 4 * 1) (by omega) (by omega), ok_bind,
      load_ok S (p + 4 * 2) (by omega) (by omega), ok_bind, load_ok S (p + 4 * 3) (by omega) (by omega), ok_bind,
      e0, ok_bind, e1, ok_bind, e2, ok_bind, e3, ok_bind,
      load_ok S (p + 4 * 4) (by omega) (by omega), ok_bind, load_ok S (p + 4 * 5) (by omega) (by omega), ok_bind,
      load_ok S (p + 4 * 6) (by omega) (by omega), ok_bind, load_ok S (p + 4 * 7) (by omega) (by omega), ok_bind,
      e4, ok_bind, e5, ok_bind, e6, ok_bind, e7, ok_bind]

/-- The copy loop runs exactly `k + 1` iterations when `src_end` lies in the last of them
(or when `k = 0`), and then has copied the `32 * (k + 1)` words from `p` on. -/
theorem copy_loop_spec (k : Nat) :
    ∀ (fuel : Nat) (D S : List Nat) (p e : Nat), k + 1 ≤ fuel →
      p + 32 * (k + 1) ≤ D.length → p + 32 * (k + 1) ≤ S.length →
      e ≤ p + 32 * (k + 1) → (k = 0 ∨ p + 32 * k < e) → p % 4 = 0 →
      ∃ D', sse2_copy_block_loop fuel D S p p e = .ok (D', S) ∧
        Upd (fun s _ => s) D S p (p + 32 * (k + 1)) D' := by
  induction k with
  | zero =>
    intro fuel D S p e hf hD hS he _ ha
    obtain ⟨n, rfl⟩ : ∃ n, fuel = n + 1 := ⟨fuel - 1, by omega⟩
    obtain ⟨D1, u1, hK⟩ := copy_iter_spec D S p (by omega) (by omega) ha
    refine ⟨D1, ?_, by simpa using u1⟩
    rw [sse2_copy_block_loop, hK]
    have : ¬ (p + 4 * 8 < e) := by omega
    simp [this]
    rfl
  | succ k ih =>
    intro fuel D S p e hf hD hS he hlo ha
    obtain ⟨n, rfl⟩ : ∃ n, fuel = n + 1 := ⟨fuel - 1, by omega⟩
    obtain ⟨D1, u1, hK⟩ := copy_iter_spec D S p (by omega) (by omega) ha
    obtain ⟨D2, e2, u2⟩ := ih n D1 S (p + 32) e (by omega) (by rw [u1.1]; omega)
      (by omega) (by omega) (by omega) (by omega)
    refine ⟨D2, ?_, ?_⟩
    · rw [sse2_copy_block_loop, hK]
      have : p + 4 * 8 < e := by omega
      have e32 : p + 4 * 8 = p + 32 := by omega
      simp only [this, if_true, e32]
      exact e2
    · have h := u1.trans u2 (by omega) (by omega)
      have e32 : p + 32 + 32 * (k + 1) = p + 32 * (k + 1 + 1) := by omega
      rwa [e32] at h

theorem copy_kernel_spec (D S : List Nat) (n : Nat)
    (hn : 0 < n) (h32 : n % 32 = 0) (hD : n ≤ D.length) (hS : n ≤ S.length) :
    ∃ D', sse2_copy_block D S 0 0 n = .ok (D', S) ∧ Upd (fun s _ => s) D S 0 n D' := by
  obtain ⟨k, rfl⟩ : ∃ k, n = 32 * (k + 1) := ⟨n / 32 - 1, by omega⟩
  obtain ⟨D', e, u⟩ := copy_loop_spec k (32 * (k + 1) - 0 + 1) D S 0 (32 * (k + 1))
    (by omega) (by omega) (by omega) (by omega) (by omega) (by omega)
  exact ⟨D', e, by simpa using u⟩

/-- C8. `sse2_copy_block` is a verbatim copy: for word arrays `dst`, `src` in separate
buffers and of equal length `n`, `n` a positive multiple of 32, the call
`sse2_copy_block(dst, src, src + n)` returns normally, leaves `src` as it was, and the
new `dst` is word for word `src`. -/
theorem sse2_copy_block_correct (dst src : List Nat) (n : Nat) (hn : 0 < n)
    (h32 : n % 32 = 0) (hd : dst.length = n) (hs : src.length = n) :
    ∃ dst', sse2_copy_block dst src 0 0 n = .ok (dst', src) ∧ dst'.length = n ∧
      ∀ i, i < n → dst'.getD i 0 = src.getD i 0 := by
  obtain ⟨D', e, u⟩ := copy_kernel_spec dst src n hn h32 (by omega) (by omega)
  refine ⟨D', e, by rw [u.1, hd], fun i hi => ?_⟩
  rw [u.2 i, if_pos ⟨Nat.zero_le i, hi⟩]

/-- Witness for C8 on a 32-word array. -/
theorem sse2_copy_block_correct_witness :
    ∃ dst', sse2_copy_block (List.replicate 32 9) (List.range 32) 0 0 32
        = .ok (dst', List.range 32) ∧ dst'.length = 32 ∧
      ∀ i, i < 32 → dst'.getD i 0 = (List.range 32).getD i 0 :=
  sse2_copy_block_correct (List.replicate 32 9) (List.range 32) 32 (by decide) (by decide)
    (by decide) (by decide)

/-! ## `sse2_set_block` and `sse2_invert_arr` -/

/-- The fill loop runs exactly `k + 1` iterations when `dst_end` lies in the last of them
(or when `k = 0`), and then has overwritten the `4 * (k + 1)` words from `p` on. -/
theorem set_loop_spec (x : Nat) (k : Nat) :
    ∀ (fuel : Nat) (D : List Nat) (p e : Nat), k + 1 ≤ fuel →
      p + 4 * (k + 1) ≤ D.length → e ≤ p + 4 * (k + 1) → (k = 0 ∨ p + 4 * k < e) → p % 4 = 0 →
      ∃ D', sse2_set_block_loop fuel D p e ⟨x, x, x, x⟩ = .ok D' ∧
        Upd (fun _ _ => x) D [] p (p + 4 * (k + 1)) D' := by
  have step : ∀ (D : List Nat) (p : Nat), p + 4 ≤ D.length → p % 4 = 0 →
      ∃ D', _mm_store_si128 D p ⟨x, x, x, x⟩ = .ok D' ∧
        Upd (fun _ _ => x) D [] p (p + 4) D' := by
    intro D p hD ha
    obtain ⟨m, hm, hlen, hget⟩ := store_ok D p ⟨x, x, x, x⟩ hD ha
    refine ⟨m, hm, hlen, fun i => ?_⟩
    rw [hget i]
    split_ifs <;> first | rfl | omega
  induction k with
  | zero =>
    intro fuel D p e hf hD he _ ha
    obtain ⟨n, rfl⟩ : ∃ n, fuel = n + 1 := ⟨fuel - 1, by omega⟩
    obtain ⟨D1, e1, u1⟩ := step D p (by omega) ha
    refine ⟨D1, ?_, by simpa using u1⟩
    rw [sse2_set_block_loop, e1, ok_bind]
    have : ¬ (p + 4 < e) := by omega
    simp [this]
    rfl
  | succ k ih =>
    intro fuel D p e hf hD he hlo ha
    obtain ⟨n, rfl⟩ : ∃ n, fuel = n + 1 := ⟨fuel - 1, by omega⟩
    obtain ⟨D1, e1, u1⟩ := step D p (by omega) ha
    obtain ⟨D2, e2, u2⟩ := ih n D1 (p + 4) e (by omega) (by rw [u1.1]; omega)
      (by omega) (by omega) (by omega)
    refine ⟨D2, ?_, ?_⟩
    · rw [sse2_set_block_loop, e1, ok_bind]
      have : p + 4 < e := by omega
      simp only [this, if_true]
      exact e2
    · have h := u1.trans u2 (by omega) (by omega)
      have e4 : p + 4 + 4 * (k + 1) = p + 4 * (k + 1 + 1) := by omega
      rwa [e4] at h

/-- The invert loop runs exactly `k + 1` iterations when `last` lies in the last of them
(or when `k = 0`), and then has XOR-ed the `4 * (k + 1)` words from `p` on with `x`. -/
theorem invert_loop_spec (x : Nat) (k : Nat) :
    ∀ (fuel : Nat) (D : List Nat) (p e : Nat), k + 1 ≤ fuel →
      p + 4 * (k + 1) ≤ D.length → e ≤ p + 4 * (k + 1) → (k = 0 ∨ p + 4 * k < e) → p % 4 = 0 →
      ∃ D', sse2_invert_arr_loop fuel D p e ⟨x, x, x, x⟩ = .ok D' ∧
        Upd (fun _ d => d ^^^ x) D [] p (p + 4 * (k + 1)) D' := by
  have step : ∀ (D : List Nat) (p : Nat), p + 4 ≤ D.length → p % 4 = 0 →
      ∃ D', _mm_store_si128 D p (_mm_xor_si128
          ⟨D.getD p 0, D.getD (p + 1) 0, D.getD (p + 2) 0, D.getD (p + 3) 0⟩ ⟨x, x, x, x⟩)
          = .ok D' ∧
        Upd (fun _ d => d ^^^ x) D [] p (p + 4) D' := by
    intro D p hD ha
    obtain ⟨m, hm, hlen, hget⟩ := store_ok D p (_mm_xor_si128
      ⟨D.getD p 0, D.getD (p + 1) 0, D.getD (p + 2) 0, D.getD (p + 3) 0⟩ ⟨x, x, x, x⟩) hD ha
    refine ⟨m, hm, hlen, fun i => ?_⟩
    rw [hget i]
    simp only [_mm_xor_si128]
    split_ifs <;> first | rfl | omega | (subst_vars; rfl)
  induction k with
  | zero =>
    intro fuel D p e hf hD he _ ha
    obtain ⟨n, rfl⟩ : ∃ n, fuel = n + 1 := ⟨fuel - 1, by omega⟩
    obtain ⟨D1, e1, u1⟩ := step D p (by omega) ha
    refine ⟨D1, ?_, by simpa using u1⟩
    rw [sse2_invert_arr_loop, load_ok D p (by omega) ha, ok_bind]
    dsimp only
    rw [e1, ok_bind]
    have : ¬ (p + 4 < e) := by omega
    simp [this]
    rfl
  | succ k ih =>
    intro fuel D p e hf hD he hlo ha
    obtain ⟨n, rfl⟩ : ∃ n, fuel = n + 1 := ⟨fuel - 1, by omega⟩
    obtain ⟨D1, e1, u1⟩ := step D p (by omega) ha
    obtain ⟨D2, e2, u2⟩ := ih n D1 (p + 4) e (by omega) (by rw [u1.1]; omega)
      (by omega) (by omega) (by omega)
    refine ⟨D2, ?_, ?_⟩
    · rw [sse2_invert_arr_loop, load_ok D p (by omega) ha, ok_bind]
      dsimp only
      rw [e1, ok_bind]
      have : p + 4 < e := by omega
      simp only [this, if_true]
      exact e2
    · have h := u1.trans u2 (by omega) (by omega)
      have e4 : p + 4 + 4 * (k + 1) = p + 4 * (k + 1 + 1) := by omega
      rwa [e4] at h

theorem set_kernel_spec (mem : List Nat) (p n value : Nat) (hn : 0 < n) (h4 : n % 4 = 0)
    (hm : p + n ≤ mem.length) (hp : p % 4 = 0) :
    ∃ mem', sse2_set_block mem p (p + n) value = .ok mem' ∧
      Upd (fun _ _ => value % 2 ^ 32) mem [] p (p + n) mem' := by
  obtain ⟨k, rfl⟩ : ∃ k, n = 4 * (k + 1) := ⟨n / 4 - 1, by omega⟩
  exact set_loop_spec (value % 2 ^ 32) k (p + 4 * (k + 1) - p + 1) mem p (p + 4 * (k + 1))
    (by omega) (by omega) (by omega) (by omega) hp

theorem invert_kernel_spec (mem : List Nat) (p n : Nat) (hn : 0 < n) (h4 : n % 4 = 0)
    (hm : p + n ≤ mem.length) (hp : p % 4 = 0) :
    ∃ mem', sse2_invert_arr mem p (p + n) = .ok mem' ∧
      Upd (fun _ d => d ^^^ 0xFFFFFFFF) mem [] p (p + n) mem' := by
  obtain ⟨k, rfl⟩ : ∃ k, n = 4 * (k + 1) := ⟨n / 4 - 1, by omega⟩
  exact invert_loop_spec 0xFFFFFFFF k (p + 4 * (k + 1) - p + 1) mem p (p + 4 * (k + 1))
    (by omega) (by omega) (by omega) (by omega) hp

/-- C9. `sse2_set_block` fills the range: let the array `dst` be the `n` words at offsets
`p .. p+n-1` of a buffer, `n` a positive multiple of 4, starting on a lane boundary
(`p` a multiple of 4, the address `dst` is 16-byte aligned), and `value` a 32-bit value.
The call `sse2_set_block(dst, dst + n, value)` returns normally, every word of the array
equals `value` afterwards, and every word of the buffer outside the array is unchanged. -/
theorem sse2_set_block_correct (mem : List Nat) (p n value : Nat) (hn : 0 < n)
    (h4 : n % 4 = 0) (hm : p + n ≤ mem.length) (hp : p % 4 = 0) (hv : value < 2 ^ 32) :
    ∃ mem', sse2_set_block mem p (p + n) value = .ok mem' ∧ mem'.length = mem.length ∧
      (∀ i, i < n → mem'.getD (p + i) 0 = value) ∧
      (∀ j, j < p ∨ p + n ≤ j → mem'.getD j 0 = mem.getD j 0) := by
  obtain ⟨mem', e, u⟩ := set_kernel_spec mem p n value hn h4 hm hp
  refine ⟨mem', e, u.1, fun i hi => ?_, fun j hj => ?_⟩
  · rw [u.2 (p + i), if_pos ⟨by omega, by omega⟩]
    exact Nat.mod_eq_of_lt hv
  · rw [u.2 j, if_neg (by omega)]

/-- Witness for C9: the second lane of a ten-word buffer. -/
theorem sse2_set_block_correct_witness :
    ∃ mem', sse2_set_block (List.range 10) 4 (4 + 4) 77 = .ok mem' ∧
      mem'.length = (List.range 10).length ∧
      (∀ i, i < 4 → mem'.getD (4 + i) 0 = 77) ∧
      (∀ j, j < 4 ∨ 4 + 4 ≤ j → mem'.getD j 0 = (List.range 10).getD j 0) :=
  sse2_set_block_correct (List.range 10) 4 4 77 (by decide) (by decide) (by decide)
    (by decide) (by decide)

/-- C10. `sse2_invert_arr` is the logical NOT in place: let the array be the `n` words at
offsets `p .. p+n-1` of a buffer of 32-bit words, `n` a positive multiple of 4, starting
on a lane boundary (`p` a multiple of 4, the address `first` is 16-byte aligned).  The
call `sse2_invert_arr(first, first + n)` returns normally, every word of the array becomes
`old ^ 0xFFFFFFFF`, which is the 32-bit complement `0xFFFFFFFF - old`, and every word of
the buffer outside the array is unchanged. -/
theorem sse2_invert_arr_correct (mem : List Nat) (p n : Nat) (hn : 0 < n)
    (h4 : n % 4 = 0) (hm : p + n ≤ mem.length) (hp : p % 4 = 0)
    (hw : ∀ x ∈ mem, x < 2 ^ 32) :
    ∃ mem', sse2_invert_arr mem p (p + n) = .ok mem' ∧ mem'.length = mem.length ∧
      (∀ i, i < n → mem'.getD (p + i) 0 = mem.getD (p + i) 0 ^^^ 0xFFFFFFFF ∧
        mem'.getD (p + i) 0 = 0xFFFFFFFF - mem.getD (p + i) 0) ∧
      (∀ j, j < p ∨ p + n ≤ j → mem'.getD j 0 = mem.getD j 0) := by
  obtain ⟨mem', e, u⟩ := invert_kernel_spec mem p n hn h4 hm hp
  refine ⟨mem', e, u.1, fun i hi => ?_, fun j hj => ?_⟩
  · have h := u.2 (p + i)
    rw [if_pos ⟨by omega, by omega⟩] at h
    refine ⟨h, ?_⟩
    have hlt := getD_lt_of_forall_mem hw (by norm_num) (p + i)
    rw [h, ← lane_not_eq _ hlt, lane_not, Nat.mod_eq_of_lt hlt]
  · rw [u.2 j, if_neg (by omega)]

/-- Witness for C10: the second lane of a ten-word buffer. -/
theorem sse2_invert_arr_correct_witness :
    ∃ mem', sse2_invert_arr (List.range 10) 4 (4 + 4) = .ok mem' ∧
      mem'.length = (List.range 10).length ∧
      (∀ i, i < 4 → mem'.getD (4 + i) 0 = (List.range 10).getD (4 + i) 0 ^^^ 0xFFFFFFFF ∧
        mem'.getD (4 + i) 0 = 0xFFFFFFFF - (List.range 10).getD (4 + i) 0) ∧
      (∀ j, j < 4 ∨ 4 + 4 ≤ j → mem'.getD j 0 = (List.range 10).getD j 0) :=
  sse2_invert_arr_correct (List.range 10) 4 4 (by decide) (by decide) (by decide)
    (by decide) (by decide)

/-! ## Agreement with the scalar reference, and the frame of the kernels -/

theorem getD_zipWith_append (g : Nat → Nat → Nat) (d s td : List Nat) (n i : Nat)
    (hd : d.length = n) (hs : s.length = n) :
    (List.zipWith g d s ++ td).getD i 0
      = if i < n then g (d.getD i 0) (s.getD i 0) else td.getD (i - n) 0 := by
  have hz : (List.zipWith g d s).length = n := by simp [hd, hs]
  by_cases hi : i < n
  · rw [if_pos hi, List.getD_append _ _ _ _ (by omega), List.getD_eq_getElem _ _ (by omega),
      List.getD_eq_getElem _ _ (by omega), List.getD_eq_getElem _ _ (by omega),
      List.getElem_zipWith]
  · rw [if_neg hi, List.getD_append_right _ _ _ _ (by omega), hz]

/-- A buffer updated on the words `0 .. n-1` is the scalar result followed by the
untouched tail. -/
theorem Upd.eq_zipWith {f : Nat → Nat → Nat} {d s td ts D' : List Nat} {n : Nat}
    (hd : d.length = n) (hs : s.length = n) (u : Upd f (d ++ td) (s ++ ts) 0 n D') :
    D' = List.zipWith (fun a b => f b a) d s ++ td := by
  apply list_ext_getD
  · rw [u.1]; simp [hd, hs]
  · intro i _
    rw [u.2 i, getD_zipWith_append _ d s td n i hd hs]
    by_cases hi : i < n
    · rw [if_pos ⟨Nat.zero_le i, hi⟩, if_pos hi, List.getD_append _ _ _ _ (by omega),
        List.getD_append _ _ _ _ (by omega)]
    · rw [if_neg (by omega), if_neg hi, List.getD_append_right _ _ _ _ (by omega), hd]

theorem zipWith_lane_not (d s : List Nat) (hw : ∀ x ∈ s, x < 2 ^ 32) :
    List.zipWith (fun a b => lane_not b &&& a) d s = scalar_sub d s := by
  unfold scalar_sub
  induction d generalizing s with
  | nil => simp
  | cons a d ih =>
    cases s with
    | nil => simp
    | cons b s =>
      simp only [List.zipWith_cons_cons]
      rw [ih s (fun x hx => hw x (List.mem_cons_of_mem _ hx)),
        lane_not_eq b (hw b (List.mem_cons_self _ _)), Nat.land_comm]

/-- C7 (amended). Vector and scalar results agree and the kernels stay inside
`[0, n)` when `n` is a positive multiple of the words one loop iteration handles:
16 words for `sse2_and_arr`, `sse2_or_arr`, `sse2_xor_arr`, `sse2_sub_arr` and 32 words
for `sse2_copy_block`.  Whatever words `td`, `ts` follow the arrays in their buffers
(none at all included), the kernel returns normally, the array `dst` holds the scalar
word-by-word result, and the words that follow are neither changed nor do they
influence the result. -/
theorem sse2_kernels_agree_with_scalar (dst src td ts : List Nat) (n : Nat)
    (hn : 0 < n) (h16 : n % 16 = 0) (hd : dst.length = n) (hs : src.length = n)
    (hw : ∀ x ∈ src, x < 2 ^ 32)
    (cdst csrc ctd cts : List Nat) (m : Nat)
    (hm : 0 < m) (h32 : m % 32 = 0) (hcd : cdst.length = m) (hcs : csrc.length = m) :
    sse2_and_arr (dst ++ td) (src ++ ts) 0 0 n = .ok (scalar_and dst src ++ td, src ++ ts) ∧
    sse2_or_arr (dst ++ td) (src ++ ts) 0 0 n = .ok (scalar_or dst src ++ td, src ++ ts) ∧
    sse2_xor_arr (dst ++ td) (src ++ ts) 0 0 n = .ok (scalar_xor dst src ++ td, src ++ ts) ∧
    sse2_sub_arr (dst ++ td) (src ++ ts) 0 0 n = .ok (scalar_sub dst src ++ td, src ++ ts) ∧
    sse2_copy_block (cdst ++ ctd) (csrc ++ cts) 0 0 m
      = .ok (scalar_copy cdst csrc ++ ctd, csrc ++ cts) := by
  have hD : n ≤ (dst ++ td).length := by simp [hd]
  have hS : n ≤ (src ++ ts).length := by simp [hs]
  refine ⟨?_, ?_, ?_, ?_, ?_⟩
  · obtain ⟨D', e, u⟩ := binop_kernel_spec (fun s d => s &&& d) _ _ n hn h16 hD hS
    rw [sse2_and_arr, sse2_and_arr_loop_eq]
    have h := Upd.eq_zipWith hd hs u
    have hc : List.zipWith (fun a b => b &&& a) dst src = scalar_and dst src := by
      unfold scalar_and
      congr 1
      funext a b
      exact Nat.land_comm b a
    rw [hc] at h
    rw [← h]
    exact e
  · obtain ⟨D', e, u⟩ := binop_kernel_spec (fun s d => s ||| d) _ _ n hn h16 hD hS
    rw [sse2_or_arr, sse2_or_arr_loop_eq]
    have h := Upd.eq_zipWith hd hs u
    have hc : List.zipWith (fun a b => b ||| a) dst src = scalar_or dst src := by
      unfold scalar_or
      congr 1
      funext a b
      exact Nat.lor_comm b a
    rw [hc] at h
    rw [← h]
    exact e
  · obtain ⟨D', e, u⟩ := binop_kernel_spec (fun s d => s ^^^ d) _ _ n hn h16 hD hS
    rw [sse2_xor_arr, sse2_xor_arr_loop_eq]
    have h := Upd.eq_zipWith hd hs u
    have hc : List.zipWith (fun a b => b ^^^ a) dst src = scalar_xor dst src := by
      unfold scalar_xor
      congr 1
      funext a b
      exact Nat.xor_comm b a
    rw [hc] at h
    rw [← h]
    exact e
  · obtain ⟨D', e, u⟩ := binop_kernel_spec (fun s d => lane_not s &&& d) _ _ n hn h16 hD hS
    rw [sse2_sub_arr, sse2_sub_arr_loop_eq]
    have h := Upd.eq_zipWith hd hs u
    rw [zipWith_lane_not dst src hw] at h
    rw [← h]
    exact e
  · obtain ⟨D', e, u⟩ := copy_kernel_spec (cdst ++ ctd) (csrc ++ cts) m hm h32
      (by simp [hcd]) (by simp [hcs])
    have h := Upd.eq_zipWith hcd hcs u
    have hc : List.zipWith (fun (a b : Nat) => b) cdst csrc = scalar_copy cdst csrc := rfl
    rw [hc] at h
    rw [← h]
    exact e

/-- Witness for C7 (amended): 16-word arrays followed by one more word, and 32-word
arrays for the copy. -/
theorem sse2_kernels_agree_with_scalar_witness :
    sse2_and_arr (List.range 16 ++ [9]) (List.replicate 16 5 ++ [8]) 0 0 16
      = .ok (scalar_and (List.range 16) (List.replicate 16 5) ++ [9],
          List.replicate 16 5 ++ [8]) ∧
    sse2_or_arr (List.range 16 ++ [9]) (List.replicate 16 5 ++ [8]) 0 0 16
      = .ok (scalar_or (List.range 16) (List.replicate 16 5) ++ [9],
          List.replicate 16 5 ++ [8]) ∧
    sse2_xor_arr (List.range 16 ++ [9]) (List.replicate 16 5 ++ [8]) 0 0 16
      = .ok (scalar_xor (List.range 16) (List.replicate 16 5) ++ [9],
          List.replicate 16 5 ++ [8]) ∧
    sse2_sub_arr (List.range 16 ++ [9]) (List.replicate 16 5 ++ [8]) 0 0 16
      = .ok (scalar_sub (List.range 16) (List.replicate 16 5) ++ [9],
          List.replicate 16 5 ++ [8]) ∧
    sse2_copy_block (List.replicate 32 1 ++ []) (List.range 32 ++ []) 0 0 32
      = .ok (scalar_copy (List.replicate 32 1) (List.range 32) ++ [], List.range 32 ++ []) :=
  sse2_kernels_agree_with_scalar (List.range 16) (List.replicate 16 5) [9] [8] 16
    (by decide) (by decide) (by decide) (by decide) (by decide)
    (List.replicate 32 1) (List.range 32) [] [] 32
    (by decide) (by decide) (by decide) (by decide)

/-- C7 as stated fails at exactly one lane (`n = 4`): on two four-word arrays
`sse2_and_arr` and `sse2_copy_block` go on to the words at index 4 and beyond, which do
not exist; and when the buffers do continue, `sse2_and_arr` called with `src_end = src + 4`
overwrites the words 4 .. 15 of the destination buffer as well. -/
theorem sse2_one_lane_counterexample :
    sse2_and_arr [7, 7, 7, 7] [5, 5, 5, 5] 0 0 4 = .error .out_of_bounds ∧
    sse2_copy_block [7, 7, 7, 7] [5, 5, 5, 5] 0 0 4 = .error .out_of_bounds ∧
    sse2_and_arr (List.replicate 16 7) ([5, 5, 5, 5] ++ List.replicate 12 0) 0 0 4
      = .ok ([5, 5, 5, 5] ++ List.replicate 12 0, [5, 5, 5, 5] ++ List.replicate 12 0) := by
  decide

/-! ## GAP block sizing -/

/-- C6 (amended). For every level-length table of 16-bit entries and every level `L` in
range, `alloc_gap_block` computes the word length `glevel_len[L] / 2`; multiplied back by
`sizeof(word_t) / sizeof(gap_word_t) = 2` it gives `glevel_len[L]` exactly when
`glevel_len[L]` is even, that is, a whole number of words. -/
theorem alloc_gap_block_len_round_trip (glevel_len : List Nat) (L : Nat)
    (hL : L < glevel_len.length) (h16 : ∀ x ∈ glevel_len, x < 2 ^ 16) :
    ∃ len, alloc_gap_block_len L glevel_len = .ok len ∧
      len = glevel_len.getD L 0 / 2 ∧
      (len * (sizeof_word_t / sizeof_gap_word_t) = glevel_len.getD L 0
        ↔ glevel_len.getD L 0 % 2 = 0) := by
  have hx := getD_lt_of_forall_mem h16 (by norm_num) L
  have h2 : sizeof_word_t / sizeof_gap_word_t = 2 := by decide
  refine ⟨glevel_len.getD L 0 / 2, ?_, rfl, ?_⟩
  · simp only [alloc_gap_block_len, hL, if_true, h2]
    congr 1
    apply Nat.mod_eq_of_lt
    have : (2 : Nat) ^ 16 = 65536 := by norm_num
    have : (2 : Nat) ^ 32 = 4294967296 := by norm_num
    omega
  · rw [h2]
    omega

/-- Witness for C6 (amended) on a four-level table. -/
theorem alloc_gap_block_len_round_trip_witness :
    ∃ len, alloc_gap_block_len 3 [128, 256, 512, 1280] = .ok len ∧
      len = [128, 256, 512, 1280].getD 3 0 / 2 ∧
      (len * (sizeof_word_t / sizeof_gap_word_t) = [128, 256, 512, 1280].getD 3 0
        ↔ [128, 256, 512, 1280].getD 3 0 % 2 = 0) :=
  alloc_gap_block_len_round_trip [128, 256, 512, 1280] 3 (by decide) (by decide)

/-- C6 as stated fails on a table with an odd entry: for the table `[129, 256, 512, 1280]`
and level 0 the computed word length is 64, and `64 * 2 = 128`, not 129. -/
theorem alloc_gap_block_len_odd_counterexample :
    alloc_gap_block_len 0 [129, 256, 512, 1280] = .ok 64 ∧
      64 * (sizeof_word_t / sizeof_gap_word_t) ≠ [129, 256, 512, 1280].getD 0 0 := by
  decide

/-! ## `sse2_gap_sum_arr` -/

theorem loadu_ok (buf : List Nat) (q : Nat) (h : q + 8 ≤ buf.length) (z : Int)
    (hz : z = (q : Int)) :
    _mm_loadu_si128 buf z = .ok (fun j => if j < 8 then buf.getD (q + j) 0 else 0) := by
  subst hz
  have : (0 : Int) ≤ (q : Int) ∧ (q : Int) + 8 ≤ (buf.length : Int) := by omega
  simp only [_mm_loadu_si128, this, and_self, if_true, Int.toNat_ofNat]

/-- The wave loop never faults on a buffer that holds the entries it reads, advances the
pointer by 16 entries per wave, and every lane of the accumulator is, modulo `2^16`, the
old lane plus the exact lane total. -/
theorem gap_loop_spec (buf : List Nat) (w : Nat) :
    ∀ (xcnt : M128x16) (pbuf : Nat), 1 ≤ pbuf → pbuf + 16 * w ≤ buf.length + 1 →
      ∃ x', sse2_gap_sum_arr_loop w buf xcnt pbuf = .ok (x', pbuf + 16 * w) ∧
        ∀ j, j < 8 → x' j % 65536 = (xcnt j + lane_total buf w (pbuf - 1) j) % 65536 := by
  induction w with
  | zero =>
    intro xcnt pbuf _ _
    exact ⟨xcnt, rfl, fun j _ => by simp [lane_total]⟩
  | succ w ih =>
    intro xcnt pbuf h1 hlen
    have l0 := loadu_ok buf (pbuf - 1) (by omega) ((pbuf : Int) - 1) (by omega)
    have l1 := loadu_ok buf (pbuf + 7) (by omega) ((pbuf : Int) + 8 - 1) (by omega)
    obtain ⟨x', e, hx⟩ := ih
      (_mm_add_epi16 xcnt (_mm_add_epi16
        (fun j => if j < 8 then buf.getD (pbuf + 7 + j) 0 else 0)
        (fun j => if j < 8 then buf.getD (pbuf - 1 + j) 0 else 0)))
      (pbuf + 16) (by omega) (by omega)
    refine ⟨x', ?_, fun j hj => ?_⟩
    · rw [sse2_gap_sum_arr_loop, l0, ok_bind, l1, ok_bind]
      have e16 : pbuf + 16 * (w + 1) = pbuf + 16 + 16 * w := by omega
      rw [e16]
      exact e
    · rw [hx j hj]
      simp only [_mm_add_epi16, hj, if_true, lane_total]
      have ea : pbuf + 16 - 1 = pbuf - 1 + 16 := by omega
      have eb : pbuf - 1 + 8 + j = pbuf + 7 + j := by omega
      rw [ea, eb]
      have : (2 : Nat) ^ 16 = 65536 := by norm_num
      rw [this]
      omega

theorem gap_run_sum_zero (p : List Nat) (s : Nat) : gap_run_sum p s 0 = 0 := rfl

theorem gap_run_sum_succ (p : List Nat) (s r : Nat) :
    gap_run_sum p s (r + 1)
      = gap_run_sum p s r + (p.getD (s + 2 * r) 0 - p.getD (s + 2 * r - 1) 0) := by
  simp [gap_run_sum, List.range_succ]

theorem gap_run_sum_add (p : List Nat) (s a b : Nat) :
    gap_run_sum p s (a + b) = gap_run_sum p s a + gap_run_sum p (s + 2 * a) b := by
  induction b with
  | zero => simp [gap_run_sum_zero]
  | succ b ih =>
    rw [← Nat.add_assoc, gap_run_sum_succ, gap_run_sum_succ, ih]
    have e : s + 2 * (a + b) = s + 2 * a + 2 * b := by omega
    rw [e]
    omega

theorem gap_run_sum_eight (p : List Nat) (q : Nat) :
    gap_run_sum p (q + 1) 8
      = (p.getD (q + 1) 0 - p.getD q 0) + (p.getD (q + 3) 0 - p.getD (q + 2) 0)
        + (p.getD (q + 5) 0 - p.getD (q + 4) 0) + (p.getD (q + 7) 0 - p.getD (q + 6) 0)
        + (p.getD (q + 9) 0 - p.getD (q + 8) 0) + (p.getD (q + 11) 0 - p.getD (q + 10) 0)
        + (p.getD (q + 13) 0 - p.getD (q + 12) 0)
        + (p.getD (q + 15) 0 - p.getD (q + 14) 0) := by
  simp only [gap_run_sum, List.range_succ, List.range_zero, List.nil_append, List.map_append,
    List.map_cons, List.map_nil, List.sum_append, List.sum_cons, List.sum_nil,
    Nat.add_sub_cancel, Nat.add_assoc, Nat.reduceAdd, Nat.reduceMul, Nat.add_zero,
    Nat.zero_add]
  have e3 : q + 3 - 1 = q + 2 := by omega
  have e5 : q + 5 - 1 = q + 4 := by omega
  have e7 : q + 7 - 1 = q + 6 := by omega
  have e9 : q + 9 - 1 = q + 8 := by omega
  have e11 : q + 11 - 1 = q + 10 := by omega
  have e13 : q + 13 - 1 = q + 12 := by omega
  have e15 : q + 15 - 1 = q + 14 := by omega
  rw [e3, e5, e7, e9, e11, e13, e15]

/-- Telescoping bound: on a non-decreasing stretch the run lengths add up to at most the
last run end. -/
theorem gap_run_sum_le (p : List Nat) (s : Nat) (hs : 1 ≤ s) (r : Nat)
    (hmono : ∀ i, s ≤ i + 1 → i + 1 ≤ s + 2 * r → p.getD i 0 ≤ p.getD (i + 1) 0) :
    gap_run_sum p s (r + 1) + p.getD (s - 1) 0 ≤ p.getD (s + 2 * r) 0 := by
  induction r with
  | zero =>
    rw [gap_run_sum_succ, gap_run_sum_zero]
    have := hmono (s - 1) (by omega) (by omega)
    have e : s - 1 + 1 = s := by omega
    rw [e] at this
    simp only [Nat.mul_zero, Nat.add_zero]
    omega
  | succ r ih =>
    have h1 := ih (fun i h1 h2 => hmono i h1 (by omega))
    have h2 := hmono (s + 2 * r) (by omega) (by omega)
    have h3 := hmono (s + 2 * r + 1) (by omega) (by omega)
    rw [gap_run_sum_succ]
    have e1 : s + 2 * (r + 1) = s + 2 * r + 1 + 1 := by omega
    have e2 : s + 2 * r + 1 + 1 - 1 = s + 2 * r + 1 := by omega
    rw [e1, e2]
    omega

/-- With non-decreasing entries each odd lane total dominates the even lane total below
it, and the four differences add up to the sum of the run lengths. -/
theorem lane_total_pairs (p : List Nat) (w : Nat) :
    ∀ q : Nat, (∀ i, q ≤ i → i + 1 < q + 16 * w → p.getD i 0 ≤ p.getD (i + 1) 0) →
      lane_total p w q 0 ≤ lane_total p w q 1 ∧ lane_total p w q 2 ≤ lane_total p w q 3 ∧
      lane_total p w q 4 ≤ lane_total p w q 5 ∧ lane_total p w q 6 ≤ lane_total p w q 7 ∧
      (lane_total p w q 1 - lane_total p w q 0) + (lane_total p w q 3 - lane_total p w q 2)
        + (lane_total p w q 5 - lane_total p w q 4)
        + (lane_total p w q 7 - lane_total p w q 6) = gap_run_sum p (q + 1) (8 * w) := by
  induction w with
  | zero =>
    intro q _
    simp [lane_total, gap_run_sum_zero]
  | succ w ih =>
    intro q hmono
    obtain ⟨i0, i1, i2, i3, it⟩ := ih (q + 16) (fun i h1 h2 => hmono i (by omega) (by omega))
    have m0 := hmono q (by omega) (by omega)
    have m2 := hmono (q + 2) (by omega) (by omega)
    have m4 := hmono (q + 4) (by omega) (by omega)
    have m6 := hmono (q + 6) (by omega) (by omega)
    have m8 := hmono (q + 8) (by omega) (by omega)
    have m10 := hmono (q + 10) (by omega) (by omega)
    have m12 := hmono (q + 12) (by omega) (by omega)
    have m14 := hmono (q + 14) (by omega) (by omega)
    have e8 : 8 * (w + 1) = 8 + 8 * w := by omega
    have e17 : q + 1 + 2 * 8 = q + 16 + 1 := by omega
    rw [e8, gap_run_sum_add, gap_run_sum_eight, e17, ← it]
    simp only [lane_total, Nat.add_zero, Nat.add_assoc, Nat.reduceAdd] at *
    refine ⟨by omega, by omega, by omega, by omega, ?_⟩
    omega

theorem countP_or_of_disjoint (P Q : Nat → Bool) (l : List Nat)
    (h : ∀ x ∈ l, P x = true → Q x = false) :
    l.countP (fun x => P x || Q x) = l.countP P + l.countP Q := by
  induction l with
  | nil => rfl
  | cons a l ih =>
    have ih' := ih (fun x hx => h x (List.mem_cons_of_mem _ hx))
    have ha := h a (List.mem_cons_self _ _)
    simp only [List.countP_cons, ih']
    cases hP : P a <;> cases hQ : Q a <;> simp_all <;> omega

theorem countP_interval_range (a b N : Nat) :
    (List.range N).countP (fun x => decide (a < x ∧ x ≤ b))
      = min N (b + 1) - min N (a + 1) := by
  induction N with
  | zero => simp
  | succ N ih =>
    rw [List.range_succ, List.countP_append, ih]
    simp only [List.countP_cons, List.countP_nil, Nat.zero_add]
    by_cases h : a < N ∧ N ≤ b
    · simp only [h, and_self, decide_True, if_true]
      omega
    · simp only [h, decide_False, Bool.false_eq_true, if_false]
      omega

theorem gap_bit_succ (p : List Nat) (s r x : Nat) :
    gap_bit p s (r + 1) x
      = (gap_bit p s r x ||
          decide (p.getD (s + 2 * r - 1) 0 < x ∧ x ≤ p.getD (s + 2 * r) 0)) := by
  simp [gap_bit, List.range_succ]

theorem gap_bit_le (p : List Nat) (s r x : Nat) (h : gap_bit p s r x = true) :
    ∃ m, m < r ∧ x ≤ p.getD (s + 2 * m) 0 := by
  simp only [gap_bit, List.any_eq_true, List.mem_range, decide_eq_true_eq] at h
  obtain ⟨m, hm, _, hx⟩ := h
  exact ⟨m, hm, hx⟩

/-- The population count of the expanded bit array is the sum of the run lengths, when
the run-end entries are 16-bit values and non-decreasing. -/
theorem bit_count_gap_expand (p : List Nat) (s : Nat) (h16 : ∀ x ∈ p, x < 2 ^ 16) (r : Nat) :
    (∀ i j, s ≤ i + 1 → i ≤ j → j + 2 ≤ s + 2 * r → p.getD i 0 ≤ p.getD j 0) →
      bit_count (gap_expand p s r) = gap_run_sum p s r := by
  have hcount : ∀ r, bit_count (gap_expand p s r)
      = (List.range (2 ^ 16)).countP (gap_bit p s r) := by
    intro r
    simp only [bit_count, gap_expand, List.count, List.countP_map]
    congr 1
    funext x
    simp
  rw [hcount]
  induction r with
  | zero =>
    intro _
    rw [gap_run_sum_zero]
    simp [gap_bit]
  | succ r ih =>
    intro hmono
    have ih' := ih (fun i j h1 h2 h3 => hmono i j h1 h2 (by omega))
    have hfun : gap_bit p s (r + 1) = fun x => gap_bit p s r x ||
        decide (p.getD (s + 2 * r - 1) 0 < x ∧ x ≤ p.getD (s + 2 * r) 0) := by
      funext x
      exact gap_bit_succ p s r x
    rw [hfun, countP_or_of_disjoint, ih', countP_interval_range, gap_run_sum_succ]
    · have ha := getD_lt_of_forall_mem h16 (by norm_num) (s + 2 * r - 1)
      have hb := getD_lt_of_forall_mem h16 (by norm_num) (s + 2 * r)
      have : (2 : Nat) ^ 16 = 65536 := by norm_num
      rw [this] at ha hb ⊢
      omega
    · intro x _ hx
      obtain ⟨m, hm, hxm⟩ := gap_bit_le p s r x hx
      have := hmono (s + 2 * m) (s + 2 * r - 1) (by omega) (by omega) (by omega)
      simp only [decide_eq_false_iff_not, not_and, not_le]
      intro hlt
      omega

theorem sub_mod_exact (a b : Nat) (h : a ≤ b) (hd : b - a < 65536) :
    (b % 65536 + 65536 - a % 65536) % 65536 = b - a := by
  omega

/-- After the shift-and-subtract step the even 16-bit lane `2k` holds, modulo `2^16`, the
odd lane `2k+1` minus the even lane `2k` of the accumulator. -/
theorem cnt8_even (x : M128x16) (k : Nat) :
    _mm_sub_epi16 (_mm_srli_epi32 x 16) x (2 * k)
      = (x (2 * k + 1) % 65536 + 65536 - x (2 * k) % 65536) % 65536 := by
  have h2 : 2 * k % 2 = 0 := by omega
  have hk : 2 * k / 2 = k := by omega
  have e16 : (2 : Nat) ^ 16 = 65536 := by norm_num
  simp only [_mm_sub_epi16, _mm_srli_epi32, epi32_lane, h2, hk, if_true,
    Nat.shiftRight_eq_div_pow, e16]
  omega

/-- C5. `sse2_gap_sum_arr` computes the population count of the set runs.  Let `p` be an
array of 16-bit run-end entries, `s ≥ 1` and `w` a wave count such that the entries
`s-1 .. s+16w-2` exist and are non-decreasing.  The call with `pbuf = &p[s]` returns
normally with the tail pointer `&p[s + 16w]` and has added to `*sum` (an `unsigned`)
exactly the sum over `m = 0 .. 8w-1` of `p[s+2m] - p[s+2m-1]`; the 16-bit wrap-around of
the lane accumulators does not show.  That sum is the number of set bits of the expanded
bit array whose set runs are the intervals `(p[s+2m-1], p[s+2m]]`. -/
theorem sse2_gap_sum_arr_correct (p : List Nat) (s w sum : Nat) (hs : 1 ≤ s)
    (hlen : s + 16 * w ≤ p.length + 1) (h16 : ∀ x ∈ p, x < 2 ^ 16)
    (hmono : ∀ i j, s ≤ i + 1 → i ≤ j → j + 2 ≤ s + 16 * w → p.getD i 0 ≤ p.getD j 0) :
    sse2_gap_sum_arr p s w sum
        = .ok (s + 16 * w, (sum + gap_run_sum p s (8 * w)) % 2 ^ 32) ∧
      gap_run_sum p s (8 * w) = bit_count (gap_expand p s (8 * w)) := by
  constructor
  · obtain ⟨x', e, hx⟩ := gap_loop_spec p w _mm_setzero_si128 s hs hlen
    obtain ⟨i0, i1, i2, i3, it⟩ := lane_total_pairs p w (s - 1)
      (fun i h1 h2 => hmono i (i + 1) (by omega) (by omega) (by omega))
    have es : s - 1 + 1 = s := by omega
    rw [es] at it
    have hb : gap_run_sum p s (8 * w) < 65536 := by
      rcases Nat.eq_zero_or_pos w with h0 | hpos
      · subst h0
        simp [gap_run_sum_zero]
      · obtain ⟨r, hr⟩ : ∃ r, 8 * w = r + 1 := ⟨8 * w - 1, by omega⟩
        have h := gap_run_sum_le p s hs r
          (fun i h1 h2 => hmono i (i + 1) (by omega) (by omega) (by omega))
        have hlast := getD_lt_of_forall_mem h16 (by norm_num) (s + 2 * r)
        have e16 : (2 : Nat) ^ 16 = 65536 := by norm_num
        rw [e16] at hlast
        rw [hr]
        omega
    have h0 := hx 0 (by omega)
    have h1 := hx 1 (by omega)
    have h2 := hx 2 (by omega)
    have h3 := hx 3 (by omega)
    have h4 := hx 4 (by omega)
    have h5 := hx 5 (by omega)
    have h6 := hx 6 (by omega)
    have h7 := hx 7 (by omega)
    simp only [_mm_setzero_si128, Nat.zero_add] at h0 h1 h2 h3 h4 h5 h6 h7
    have c0 := cnt8_even x' 0
    have c1 := cnt8_even x' 1
    have c2 := cnt8_even x' 2
    have c3 := cnt8_even x' 3
    simp only [Nat.mul_zero, Nat.mul_one, Nat.reduceMul, Nat.reduceAdd, Nat.zero_add] at c0 c1 c2 c3
    simp only [sse2_gap_sum_arr]
    rw [e, ok_bind]
    simp only [c0, c1, c2, c3, h0, h1, h2, h3, h4, h5, h6, h7]
    have hsum : (lane_total p w (s - 1) 1 % 65536 + 65536 - lane_total p w (s - 1) 0 % 65536)
          % 65536
        + (lane_total p w (s - 1) 3 % 65536 + 65536 - lane_total p w (s - 1) 2 % 65536) % 65536
        + (lane_total p w (s - 1) 5 % 65536 + 65536 - lane_total p w (s - 1) 4 % 65536) % 65536
        + (lane_total p w (s - 1) 7 % 65536 + 65536 - lane_total p w (s - 1) 6 % 65536) % 65536
        = gap_run_sum p s (8 * w) := by
      rw [sub_mod_exact _ _ i0 (by omega), sub_mod_exact _ _ i1 (by omega),
        sub_mod_exact _ _ i2 (by omega), sub_mod_exact _ _ i3 (by omega)]
      exact it
    rw [hsum]
    rfl
  · exact (bit_count_gap_expand p s h16 (8 * w)
      (fun i j h1 h2 h3 => hmono i j h1 h2 (by omega))).symm

/-- Witness for C5: one wave over sixteen entries `60000 .. 60015`, where every lane
accumulator wraps around `2^16`. -/
theorem sse2_gap_sum_arr_correct_witness :
    sse2_gap_sum_arr ((List.range 16).map (· + 60000)) 1 1 5
        = .ok (1 + 16 * 1, (5 + gap_run_sum ((List.range 16).map (· + 60000)) 1 (8 * 1))
            % 2 ^ 32) ∧
      gap_run_sum ((List.range 16).map (· + 60000)) 1 (8 * 1)
        = bit_count (gap_expand ((List.range 16).map (· + 60000)) 1 (8 * 1)) :=
  sse2_gap_sum_arr_correct ((List.range 16).map (· + 60000)) 1 1 5 (by decide) (by decide)
    (by decide)
    (by
      intro i j _ hij hj
      have hi : i < 16 := by omega
      have hj' : j < 16 := by omega
      rw [List.getD_eq_getElem _ _ (by simpa using hi),
        List.getD_eq_getElem _ _ (by simpa using hj')]
      simp only [List.getElem_map, List.getElem_range]
      omega)

/-! ## `sse2_xor_arr_2_mask` and `sse2_andnot_arr_2_mask` -/

theorem sse2_xor_arr_2_mask_loop_eq (fuel : Nat) (D S : List Nat) (dst src src_end : Nat)
    (xmm2 : M128) :
    sse2_xor_arr_2_mask_loop fuel D S dst src src_end xmm2
      = mask_loop _mm_xor_si128 fuel D S dst src src_end xmm2 := by
  induction fuel generalizing D S dst src with
  | zero => rfl
  | succ n ih => simp [sse2_xor_arr_2_mask_loop, mask_loop, ih]

theorem sse2_andnot_arr_2_mask_loop_eq (fuel : Nat) (D S : List Nat) (dst src src_end : Nat)
    (xmm2 : M128) :
    sse2_andnot_arr_2_mask_loop fuel D S dst src src_end xmm2
      = mask_loop _mm_andnot_si128 fuel D S dst src src_end xmm2 := by
  induction fuel generalizing D S dst src with
  | zero => rfl
  | succ n ih => simp [sse2_andnot_arr_2_mask_loop, mask_loop, ih]

/-- The mask loop runs exactly `k + 1` iterations when `src_end` lies in the last of them
(or when `k = 0`), and then has written `g (S[i]) m` to the `4 * (k + 1)` words from `p`
on. -/
theorem mask_loop_spec (g : Nat → Nat → Nat) (m : Nat) (k : Nat) :
    ∀ (fuel : Nat) (D S : List Nat) (p e : Nat), k + 1 ≤ fuel →
      p + 4 * (k + 1) ≤ D.length → p + 4 * (k + 1) ≤ S.length →
      e ≤ p + 4 * (k + 1) → (k = 0 ∨ p + 4 * k < e) → p % 4 = 0 →
      ∃ D', mask_loop (M128.map2 g) fuel D S p p e ⟨m, m, m, m⟩ = .ok (D', S) ∧
        Upd (fun s _ => g s m) D S p (p + 4 * (k + 1)) D' := by
  have step : ∀ (D S : List Nat) (p : Nat), p + 4 ≤ D.length → p % 4 = 0 →
      ∃ D', _mm_store_si128 D p (M128.map2 g
          ⟨S.getD p 0, S.getD (p + 1) 0, S.getD (p + 2) 0, S.getD (p + 3) 0⟩ ⟨m, m, m, m⟩)
          = .ok D' ∧
        Upd (fun s _ => g s m) D S p (p + 4) D' := by
    intro D S p hD ha
    obtain ⟨d, hd, hlen, hget⟩ := store_ok D p (M128.map2 g
      ⟨S.getD p 0, S.getD (p + 1) 0, S.getD (p + 2) 0, S.getD (p + 3) 0⟩ ⟨m, m, m, m⟩) hD ha
    refine ⟨d, hd, hlen, fun i => ?_⟩
    rw [hget i]
    simp only [M128.map2]
    split_ifs <;> first | rfl | omega | (subst_vars; rfl)
  induction k with
  | zero =>
    intro fuel D S p e hf hD hS he _ ha
    obtain ⟨n, rfl⟩ : ∃ n, fuel = n + 1 := ⟨fuel - 1, by omega⟩
    obtain ⟨D1, e1, u1⟩ := step D S p (by omega) ha
    refine ⟨D1, ?_, by simpa using u1⟩
    rw [mask_loop, load_ok S p (by omega) ha, ok_bind, e1, ok_bind]
    have : ¬ (p + 4 < e) := by omega
    simp [this]
    rfl
  | succ k ih =>
    intro fuel D S p e hf hD hS he hlo ha
    obtain ⟨n, rfl⟩ : ∃ n, fuel = n + 1 := ⟨fuel - 1, by omega⟩
    obtain ⟨D1, e1, u1⟩ := step D S p (by omega) ha
    obtain ⟨D2, e2, u2⟩ := ih n D1 S (p + 4) e (by omega) (by rw [u1.1]; omega)
      (by omega) (by omega) (by omega) (by omega)
    refine ⟨D2, ?_, ?_⟩
    · rw [mask_loop, load_ok S p (by omega) ha, ok_bind, e1, ok_bind]
      have : p + 4 < e := by omega
      simp only [this, if_true]
      exact e2
    · have h := u1.trans u2 (by omega) (by omega)
      have e4 : p + 4 + 4 * (k + 1) = p + 4 * (k + 1 + 1) := by omega
      rwa [e4] at h

theorem mask_kernel_spec (g : Nat → Nat → Nat) (D S : List Nat) (n mask : Nat)
    (hn : 0 < n) (h4 : n % 4 = 0) (hD : n ≤ D.length) (hS : n ≤ S.length) :
    ∃ D', mask_loop (M128.map2 g) (n - 0 + 1) D S 0 0 n (_mm_set_epi32 mask mask mask mask)
        = .ok (D', S) ∧
      Upd (fun s _ => g s (mask % 2 ^ 32)) D S 0 n D' := by
  obtain ⟨k, rfl⟩ : ∃ k, n = 4 * (k + 1) := ⟨n / 4 - 1, by omega⟩
  obtain ⟨D', e, u⟩ := mask_loop_spec g (mask % 2 ^ 32) k (4 * (k + 1) - 0 + 1) D S 0
    (4 * (k + 1)) (by omega) (by omega) (by omega) (by omega) (by omega) (by omega)
  exact ⟨D', e, by simpa using u⟩

/-- C11. `sse2_xor_arr_2_mask` XORs the source with a broadcast mask: for word arrays
`dst`, `src` in separate buffers and of equal length `n`, `n` a positive multiple of 4,
and a 32-bit `mask`, the call `sse2_xor_arr_2_mask(dst, src, src + n, mask)` returns
normally, leaves `src` as it was, and every word `i < n` of the new `dst` is
`src[i] ^ mask`. -/
theorem sse2_xor_arr_2_mask_correct (dst src : List Nat) (n mask : Nat) (hn : 0 < n)
    (h4 : n % 4 = 0) (hd : dst.length = n) (hs : src.length = n) (hm : mask < 2 ^ 32) :
    ∃ dst', sse2_xor_arr_2_mask dst src 0 0 n mask = .ok (dst', src) ∧ dst'.length = n ∧
      ∀ i, i < n → dst'.getD i 0 = src.getD i 0 ^^^ mask := by
  obtain ⟨D', e, u⟩ := mask_kernel_spec (fun s m => s ^^^ m) dst src n mask hn h4
    (by omega) (by omega)
  refine ⟨D', ?_, by rw [u.1, hd], fun i hi => ?_⟩
  · rw [sse2_xor_arr_2_mask, sse2_xor_arr_2_mask_loop_eq]
    exact e
  · rw [u.2 i, if_pos ⟨Nat.zero_le i, hi⟩, Nat.mod_eq_of_lt hm]

/-- Witness for C11 on a four-word array. -/
theorem sse2_xor_arr_2_mask_correct_witness :
    ∃ dst', sse2_xor_arr_2_mask [0, 0, 0, 0] [1, 2, 3, 4] 0 0 4 255 = .ok (dst', [1, 2, 3, 4]) ∧
      dst'.length = 4 ∧ ∀ i, i < 4 → dst'.getD i 0 = [1, 2, 3, 4].getD i 0 ^^^ 255 :=
  sse2_xor_arr_2_mask_correct [0, 0, 0, 0] [1, 2, 3, 4] 4 255 (by decide) (by decide)
    (by decide) (by decide) (by decide)

/-- C12. `sse2_andnot_arr_2_mask` inverts the source and ANDs it with a broadcast mask:
for arrays `dst`, `src` of 32-bit words in separate buffers and of equal length `n`, `n` a
positive multiple of 4, and a 32-bit `mask`, the call
`sse2_andnot_arr_2_mask(dst, src, src + n, mask)` returns normally, leaves `src` as it
was, and every word `i < n` of the new `dst` is `~src[i] & mask`, where the 32-bit
complement `~x` is `0xFFFFFFFF - x`. -/
theorem sse2_andnot_arr_2_mask_correct (dst src : List Nat) (n mask : Nat) (hn : 0 < n)
    (h4 : n % 4 = 0) (hd : dst.length = n) (hs : src.length = n) (hm : mask < 2 ^ 32)
    (hw : ∀ x ∈ src, x < 2 ^ 32) :
    ∃ dst', sse2_andnot_arr_2_mask dst src 0 0 n mask = .ok (dst', src) ∧ dst'.length = n ∧
      ∀ i, i < n → dst'.getD i 0 = (0xFFFFFFFF - src.getD i 0) &&& mask := by
  obtain ⟨D', e, u⟩ := mask_kernel_spec (fun s m => lane_not s &&& m) dst src n mask hn h4
    (by omega) (by omega)
  refine ⟨D', ?_, by rw [u.1, hd], fun i hi => ?_⟩
  · rw [sse2_andnot_arr_2_mask, sse2_andnot_arr_2_mask_loop_eq]
    exact e
  · rw [u.2 i, if_pos ⟨Nat.zero_le i, hi⟩, Nat.mod_eq_of_lt hm]
    show lane_not (src.getD i 0) &&& mask = _
    rw [lane_not_eq _ (getD_lt_of_forall_mem hw (by norm_num) i)]

/-- Witness for C12 on a four-word array. -/
theorem sse2_andnot_arr_2_mask_correct_witness :
    ∃ dst', sse2_andnot_arr_2_mask [0, 0, 0, 0] [1, 2, 3, 4] 0 0 4 255
        = .ok (dst', [1, 2, 3, 4]) ∧
      dst'.length = 4 ∧
      ∀ i, i < 4 → dst'.getD i 0 = (0xFFFFFFFF - [1, 2, 3, 4].getD i 0) &&& 255 :=
  sse2_andnot_arr_2_mask_correct [0, 0, 0, 0] [1, 2, 3, 4] 4 255 (by decide) (by decide)
    (by decide) (by decide) (by decide) (by decide)

/-! ## Algebraic identities of the kernels -/

theorem getD_replicate_zero (n i : Nat) : (List.replicate n 0).getD i 0 = 0 := by
  by_cases hi : i < n
  · rw [List.getD_eq_getElem _ _ (by simpa using hi), List.getElem_replicate]
  · rw [List.getD_eq_default _ _ (by simpa using hi)]

/-- C13. For every word array `dst` whose length `n` is a positive multiple of 4, whatever
its contents, `sse2_set_block(dst, dst + n, 0)` followed by
`sse2_set_block(dst, dst + n, 0xFFFFFFFF)` followed by `sse2_invert_arr(dst, dst + n)`
returns normally and leaves every word of `dst` equal to 0. -/
theorem fill_fill_invert_zero (dst : List Nat) (n : Nat) (hn : 0 < n) (h4 : n % 4 = 0)
    (hd : dst.length = n) :
    (do
      let d1 ← sse2_set_block dst 0 n 0
      let d2 ← sse2_set_block d1 0 n 0xFFFFFFFF
      sse2_invert_arr d2 0 n) = .ok (List.replicate n 0) := by
  obtain ⟨d1, e1, u1⟩ := set_kernel_spec dst 0 n 0 hn h4 (by omega) rfl
  obtain ⟨d2, e2, u2⟩ := set_kernel_spec d1 0 n 0xFFFFFFFF hn h4 (by rw [u1.1]; omega) rfl
  obtain ⟨d3, e3, u3⟩ := invert_kernel_spec d2 0 n hn h4 (by rw [u2.1, u1.1]; omega) rfl
  rw [Nat.zero_add] at e1 e2 e3
  rw [e1, ok_bind, e2, ok_bind, e3]
  congr 1
  apply list_ext_getD
  · rw [u3.1, u2.1, u1.1, hd, List.length_replicate]
  · intro i hi
    rw [u3.1, u2.1, u1.1, hd] at hi
    rw [u3.2 i, if_pos ⟨Nat.zero_le i, by omega⟩, u2.2 i, if_pos ⟨Nat.zero_le i, by omega⟩,
      getD_replicate_zero]
    show (0xFFFFFFFF % 2 ^ 32) ^^^ 0xFFFFFFFF = 0
    decide

/-- Witness for C13 on an eight-word array. -/
theorem fill_fill_invert_zero_witness :
    (do
      let d1 ← sse2_set_block [1, 2, 3, 4, 5, 6, 7, 8] 0 8 0
      let d2 ← sse2_set_block d1 0 8 0xFFFFFFFF
      sse2_invert_arr d2 0 8) = .ok (List.replicate 8 0) :=
  fill_fill_invert_zero [1, 2, 3, 4, 5, 6, 7, 8] 8 (by decide) (by decide) (by decide)

/-- Inverting under a mask twice gives the word under the mask. -/
theorem lane_not_and_twice (x m : Nat) (hm : m < 2 ^ 32) :
    lane_not (lane_not x &&& m) &&& m = x &&& m := by
  have hF : (0xFFFFFFFF : Nat) = 2 ^ 32 - 1 := by norm_num
  apply Nat.eq_of_testBit_eq
  intro i
  simp only [lane_not, Nat.testBit_and, Nat.testBit_xor, Nat.testBit_mod_two_pow, hF,
    Nat.testBit_two_pow_sub_one]
  by_cases hi : i < 32
  · simp only [hi, decide_True, Bool.true_and]
    cases x.testBit i <;> cases m.testBit i <;> rfl
  · have : m.testBit i = false := by
      apply Nat.testBit_lt_two_pow
      calc m < 2 ^ 32 := hm
        _ ≤ 2 ^ i := Nat.pow_le_pow_right (by norm_num) (by omega)
    simp [this]

/-- C14. Algebraic identity of the AND-NOT-with-mask kernel: for a word array `x` whose
length `n` is a positive multiple of 4, a 32-bit `mask` and two further arrays `dst1`,
`dst2` of the same length, `y = sse2_andnot_arr_2_mask(x, mask)` computed into `dst1` and
then `sse2_andnot_arr_2_mask(y, mask)` computed into `dst2` both return normally and the
second result holds `x[i] & mask` in every word. -/
theorem andnot_mask_twice (x dst1 dst2 : List Nat) (n mask : Nat) (hn : 0 < n)
    (h4 : n % 4 = 0) (hx : x.length = n) (h1 : dst1.length = n) (h2 : dst2.length = n)
    (hm : mask < 2 ^ 32) :
    ∃ y z, sse2_andnot_arr_2_mask dst1 x 0 0 n mask = .ok (y, x) ∧
      sse2_andnot_arr_2_mask dst2 y 0 0 n mask = .ok (z, y) ∧ z.length = n ∧
      ∀ i, i < n → z.getD i 0 = x.getD i 0 &&& mask := by
  obtain ⟨y, ey, uy⟩ := mask_kernel_spec (fun s m => lane_not s &&& m) dst1 x n mask hn h4
    (by omega) (by omega)
  obtain ⟨z, ez, uz⟩ := mask_kernel_spec (fun s m => lane_not s &&& m) dst2 y n mask hn h4
    (by omega) (by rw [uy.1, h1])
  refine ⟨y, z, ?_, ?_, by rw [uz.1, h2], fun i hi => ?_⟩
  · rw [sse2_andnot_arr_2_mask, sse2_andnot_arr_2_mask_loop_eq]
    exact ey
  · rw [sse2_andnot_arr_2_mask, sse2_andnot_arr_2_mask_loop_eq]
    exact ez
  · rw [uz.2 i, if_pos ⟨Nat.zero_le i, hi⟩, uy.2 i, if_pos ⟨Nat.zero_le i, hi⟩,
      Nat.mod_eq_of_lt hm]
    exact lane_not_and_twice _ _ hm

/-- Witness for C14 on a four-word array. -/
theorem andnot_mask_twice_witness :
    ∃ y z, sse2_andnot_arr_2_mask [0, 0, 0, 0] [1, 2, 3, 260] 0 0 4 255
        = .ok (y, [1, 2, 3, 260]) ∧
      sse2_andnot_arr_2_mask [9, 9, 9, 9] y 0 0 4 255 = .ok (z, y) ∧ z.length = 4 ∧
      ∀ i, i < 4 → z.getD i 0 = [1, 2, 3, 260].getD i 0 &&& 255 :=
  andnot_mask_twice [1, 2, 3, 260] [0, 0, 0, 0] [9, 9, 9, 9] 4 255 (by decide) (by decide)
    (by decide) (by decide) (by decide) (by decide)

/-! ## The tail pointer of `sse2_gap_sum_arr` -/

theorem error_bind {α β : Type} (f : Fault) (g : α → Except Fault β) :
    ((Except.error f : Except Fault α) >>= g) = .error f := rfl

/-- On a buffer that holds the entries `s-1 .. s+16w-2` the kernel returns the pointer
`s + 16w` and adds `gap_fold` to `*sum`; nothing is assumed about the order of the
entries. -/
theorem gap_kernel_formula (buf : List Nat) (s w sum : Nat) (hs : 1 ≤ s)
    (hlen : s + 16 * w ≤ buf.length + 1) :
    sse2_gap_sum_arr buf s w sum
      = .ok (s + 16 * w, (sum + gap_fold buf w (s - 1)) % 2 ^ 32) := by
  obtain ⟨x', e, hx⟩ := gap_loop_spec buf w _mm_setzero_si128 s hs hlen
  have h0 := hx 0 (by omega)
  have h1 := hx 1 (by omega)
  have h2 := hx 2 (by omega)
  have h3 := hx 3 (by omega)
  have h4 := hx 4 (by omega)
  have h5 := hx 5 (by omega)
  have h6 := hx 6 (by omega)
  have h7 := hx 7 (by omega)
  simp only [_mm_setzero_si128, Nat.zero_add] at h0 h1 h2 h3 h4 h5 h6 h7
  have c0 := cnt8_even x' 0
  have c1 := cnt8_even x' 1
  have c2 := cnt8_even x' 2
  have c3 := cnt8_even x' 3
  simp only [Nat.mul_zero, Nat.mul_one, Nat.reduceMul, Nat.reduceAdd, Nat.zero_add] at c0 c1 c2 c3
  simp only [sse2_gap_sum_arr]
  rw [e, ok_bind]
  simp only [c0, c1, c2, c3, h0, h1, h2, h3, h4, h5, h6, h7]
  rfl

/-- The lane totals only look at the entries `q .. q+16w-1`. -/
theorem lane_total_append (buf t : List Nat) (w : Nat) :
    ∀ q j, j < 8 → q + 16 * w ≤ buf.length →
      lane_total (buf ++ t) w q j = lane_total buf w q j := by
  induction w with
  | zero => intro q j _ _; rfl
  | succ w ih =>
    intro q j hj hq
    simp only [lane_total]
    rw [ih (q + 16) j hj (by omega), List.getD_append _ _ _ _ (by omega),
      List.getD_append _ _ _ _ (by omega)]

theorem gap_fold_append (buf t : List Nat) (w q : Nat) (hq : q + 16 * w ≤ buf.length) :
    gap_fold (buf ++ t) w q = gap_fold buf w q := by
  simp only [gap_fold]
  rw [lane_total_append buf t w q 0 (by omega) hq, lane_total_append buf t w q 1 (by omega) hq,
    lane_total_append buf t w q 2 (by omega) hq, lane_total_append buf t w q 3 (by omega) hq,
    lane_total_append buf t w q 4 (by omega) hq, lane_total_append buf t w q 5 (by omega) hq,
    lane_total_append buf t w q 6 (by omega) hq, lane_total_append buf t w q 7 (by omega) hq]

/-- The wave loop faults when the pointer is at the very start of the buffer (it reads
`pbuf - 1`) or when the buffer ends before the entry `pbuf + 16 (w+1) - 2`. -/
theorem gap_loop_fault (buf : List Nat) (w : Nat) :
    ∀ (xcnt : M128x16) (pbuf : Nat), (pbuf = 0 ∨ buf.length + 1 < pbuf + 16 * (w + 1)) →
      sse2_gap_sum_arr_loop (w + 1) buf xcnt pbuf = .error .out_of_bounds := by
  induction w with
  | zero =>
    intro xcnt pbuf h
    rw [sse2_gap_sum_arr_loop]
    by_cases h0 : 1 ≤ pbuf ∧ pbuf + 7 ≤ buf.length
    · rw [loadu_ok buf (pbuf - 1) (by omega) ((pbuf : Int) - 1) (by omega), ok_bind]
      have h1 : ¬ ((0 : Int) ≤ (pbuf : Int) + 8 - 1
          ∧ (pbuf : Int) + 8 - 1 + 8 ≤ (buf.length : Int)) := by omega
      simp only [_mm_loadu_si128, h1, if_false]
      rfl
    · have h1 : ¬ ((0 : Int) ≤ (pbuf : Int) - 1
          ∧ (pbuf : Int) - 1 + 8 ≤ (buf.length : Int)) := by omega
      simp only [_mm_loadu_si128, h1, if_false]
      rfl
  | succ w ih =>
    intro xcnt pbuf h
    rw [sse2_gap_sum_arr_loop]
    by_cases h0 : 1 ≤ pbuf ∧ pbuf + 15 ≤ buf.length
    · rw [loadu_ok buf (pbuf - 1) (by omega) ((pbuf : Int) - 1) (by omega), ok_bind,
        loadu_ok buf (pbuf + 7) (by omega) ((pbuf : Int) + 8 - 1) (by omega), ok_bind]
      exact ih _ (pbuf + 16) (by omega)
    · by_cases h2 : 1 ≤ pbuf ∧ pbuf + 7 ≤ buf.length
      · rw [loadu_ok buf (pbuf - 1) (by omega) ((pbuf : Int) - 1) (by omega), ok_bind]
        have h1 : ¬ ((0 : Int) ≤ (pbuf : Int) + 8 - 1
            ∧ (pbuf : Int) + 8 - 1 + 8 ≤ (buf.length : Int)) := by omega
        simp only [_mm_loadu_si128, h1, if_false]
        rfl
      · have h1 : ¬ ((0 : Int) ≤ (pbuf : Int) - 1
            ∧ (pbuf : Int) - 1 + 8 ≤ (buf.length : Int)) := by omega
        simp only [_mm_loadu_si128, h1, if_false]
        rfl

theorem gap_kernel_fault (buf : List Nat) (s w sum : Nat) (hw : 0 < w)
    (h : s = 0 ∨ buf.length + 1 < s + 16 * w) :
    sse2_gap_sum_arr buf s w sum = .error .out_of_bounds := by
  obtain ⟨v, rfl⟩ : ∃ v, w = v + 1 := ⟨w - 1, by omega⟩
  simp only [sse2_gap_sum_arr]
  rw [gap_loop_fault buf v _ s h]
  rfl

theorem gap_kernel_no_wave (buf : List Nat) (s sum : Nat) (hsum : sum < 2 ^ 32) :
    sse2_gap_sum_arr buf s 0 sum = .ok (s, sum) := by
  have c0 := cnt8_even _mm_setzero_si128 0
  have c1 := cnt8_even _mm_setzero_si128 1
  have c2 := cnt8_even _mm_setzero_si128 2
  have c3 := cnt8_even _mm_setzero_si128 3
  have hz : ∀ j, _mm_setzero_si128 j = 0 := fun _ => rfl
  simp only [Nat.mul_zero, Nat.mul_one, Nat.reduceMul, Nat.reduceAdd, Nat.zero_add,
    hz, Nat.zero_mod, Nat.sub_zero, Nat.mod_self] at c0 c1 c2 c3
  simp only [sse2_gap_sum_arr, sse2_gap_sum_arr_loop]
  show Except.ok (s, (sum + (_mm_sub_epi16 (_mm_srli_epi32 _mm_setzero_si128 16)
      _mm_setzero_si128 0 + _mm_sub_epi16 (_mm_srli_epi32 _mm_setzero_si128 16)
      _mm_setzero_si128 2 + _mm_sub_epi16 (_mm_srli_epi32 _mm_setzero_si128 16)
      _mm_setzero_si128 4 + _mm_sub_epi16 (_mm_srli_epi32 _mm_setzero_si128 16)
      _mm_setzero_si128 6)) % 2 ^ 32) = _
  rw [c0, c1, c2, c3]
  simp only [Nat.add_zero, Nat.mod_eq_of_lt hsum]

/-- C15 (amended). With no wave at all `sse2_gap_sum_arr` returns, for every buffer, the
pointer and `*sum` as they were.  In general, let the buffer hold exactly the entries
`0 .. pbuf+16w-2`, with `pbuf ≥ 1`, followed by any entries `t` (none at all included).
The kernel returns normally with the input pointer advanced by 16 entries per wave.  The
entries that follow, which start with the one just before the returned pointer, are not
read: the result is the same whatever they are and whether or not they exist.  The last
entry read is the one two before the returned pointer, and the first one is `pbuf - 1`:
for `w > 0` the kernel runs out of the buffer when the entry `pbuf+16w-2` is taken away,
and when `pbuf` is the start of the buffer. -/
theorem sse2_gap_sum_arr_tail (buf : List Nat) (s w sum : Nat) (hs : 1 ≤ s)
    (hlen : buf.length + 1 = s + 16 * w) (hsum : sum < 2 ^ 32) :
    (∀ (b : List Nat) (q : Nat), sse2_gap_sum_arr b q 0 sum = .ok (q, sum)) ∧
    ∃ sum', (∀ t, sse2_gap_sum_arr (buf ++ t) s w sum = .ok (s + 16 * w, sum')) ∧
      (0 < w → sse2_gap_sum_arr buf.dropLast s w sum = .error .out_of_bounds ∧
        ∀ t, sse2_gap_sum_arr (buf ++ t) 0 w sum = .error .out_of_bounds) := by
  refine ⟨fun b q => gap_kernel_no_wave b q sum hsum,
    (sum + gap_fold buf w (s - 1)) % 2 ^ 32, fun t => ?_, fun hw => ⟨?_, ?_⟩⟩
  · rw [gap_kernel_formula (buf ++ t) s w sum hs (by simp; omega),
      gap_fold_append buf t w (s - 1) (by omega)]
  · exact gap_kernel_fault _ s w sum hw (Or.inr (by simp; omega))
  · intro t
    exact gap_kernel_fault _ 0 w sum hw (Or.inl rfl)

/-- Witness for C15 (amended): sixteen entries, one wave from `pbuf = 1`. -/
theorem sse2_gap_sum_arr_tail_witness :
    (∀ (b : List Nat) (q : Nat), sse2_gap_sum_arr b q 0 5 = .ok (q, 5)) ∧
    ∃ sum', (∀ t, sse2_gap_sum_arr (List.range 16 ++ t) 1 1 5 = .ok (1 + 16 * 1, sum')) ∧
      (0 < 1 → sse2_gap_sum_arr (List.range 16).dropLast 1 1 5 = .error .out_of_bounds ∧
        ∀ t, sse2_gap_sum_arr (List.range 16 ++ t) 0 1 5 = .error .out_of_bounds) :=
  sse2_gap_sum_arr_tail (List.range 16) 1 1 5 (by decide) (by decide) (by decide)

/-- C15 as stated fails for the entry just before the returned pointer: one wave from
`pbuf = 1` returns the pointer 17 on a buffer that ends with entry 15, so entry 16 has
not been consumed; and when entry 16 exists its value makes no difference. -/
theorem sse2_gap_sum_arr_tail_counterexample :
    sse2_gap_sum_arr (List.range 16) 1 1 0 = .ok (17, 8) ∧
    sse2_gap_sum_arr (List.range 16 ++ [16]) 1 1 0 = .ok (17, 8) ∧
    sse2_gap_sum_arr (List.range 16 ++ [40000]) 1 1 0 = .ok (17, 8) := by
  decide

/-! ## Allocators and the adapter -/

/-- C16. Allocation is success-or-throw.  For every build, every state of the runtime
`sys` and every count `n`, the allocate functions stand in the relation
`success_or_throw` to the answer of the runtime function they call: they fail (namespace
`bm` with `std::bad_alloc`, namespace `libbm` with `BM_ERR_BADALLOC`) exactly when that
answer is null, and they return a pointer `p` exactly when the answer is `p` and `p` is
not null; so null is never returned and a failure hands back no block.  The runtime
function is `malloc(n * 4)` for `block_allocator` in a build without the SIMD macros,
`_mm_malloc(n * 4, align)` (or `_aligned_malloc` under `_MSC_VER`) with `align = 32` in a
`BMAVX2OPT` build and `align = 16` in a `BMSSE2OPT` / `BMSSE42OPT` build, and
`malloc(n * sizeof(void*))` for `ptr_allocator`. -/
theorem allocate_success_or_throw (b : Build) (sys : SysAlloc) (n : Nat) :
    (b.BMAVX2OPT = false → b.BMSSE2OPT = false → b.BMSSE42OPT = false →
      success_or_throw (block_allocator.allocate b sys n) .bad_alloc
        (sys.malloc (n * 4 % 2 ^ b.size_t_bits)) ∧
      success_or_throw (libbm.block_allocator.allocate b sys n) .BM_ERR_BADALLOC
        (sys.malloc (n * 4 % 2 ^ b.size_t_bits))) ∧
    (b.BMAVX2OPT = true → b._MSC_VER = false →
      success_or_throw (block_allocator.allocate b sys n) .bad_alloc
        (sys._mm_malloc (n * 4 % 2 ^ b.size_t_bits) 32) ∧
      success_or_throw (libbm.block_allocator.allocate b sys n) .BM_ERR_BADALLOC
        (sys._mm_malloc (n * 4 % 2 ^ b.size_t_bits) 32)) ∧
    (b.BMAVX2OPT = true → b._MSC_VER = true →
      success_or_throw (block_allocator.allocate b sys n) .bad_alloc
        (sys._aligned_malloc (n * 4 % 2 ^ b.size_t_bits) 32) ∧
      success_or_throw (libbm.block_allocator.allocate b sys n) .BM_ERR_BADALLOC
        (sys._aligned_malloc (n * 4 % 2 ^ b.size_t_bits) 32)) ∧
    (b.BMAVX2OPT = false → (b.BMSSE2OPT = true ∨ b.BMSSE42OPT = true) → b._MSC_VER = false →
      success_or_throw (block_allocator.allocate b sys n) .bad_alloc
        (sys._mm_malloc (n * 4 % 2 ^ b.size_t_bits) 16) ∧
      success_or_throw (libbm.block_allocator.allocate b sys n) .BM_ERR_BADALLOC
        (sys._mm_malloc (n * 4 % 2 ^ b.size_t_bits) 16)) ∧
    (b.BMAVX2OPT = false → (b.BMSSE2OPT = true ∨ b.BMSSE42OPT = true) → b._MSC_VER = true →
      success_or_throw (block_allocator.allocate b sys n) .bad_alloc
        (sys._aligned_malloc (n * 4 % 2 ^ b.size_t_bits) 16) ∧
      success_or_throw (libbm.block_allocator.allocate b sys n) .BM_ERR_BADALLOC
        (sys._aligned_malloc (n * 4 % 2 ^ b.size_t_bits) 16)) ∧
    success_or_throw (ptr_allocator.allocate b sys n) .bad_alloc
      (sys.malloc (n * (b.size_t_bits / 8) % 2 ^ b.size_t_bits)) ∧
    success_or_throw (libbm.ptr_allocator.allocate b sys n) .BM_ERR_BADALLOC
      (sys.malloc (n * (b.size_t_bits / 8) % 2 ^ b.size_t_bits)) := by
  have key : ∀ (q : Nat) (f : AllocFailure),
      success_or_throw (if q = 0 then (Except.error f : Except AllocFailure Nat) else .ok q)
        f q := by
    intro q f
    unfold success_or_throw
    by_cases hq : q = 0
    · subst hq
      refine ⟨by simp, fun p => ?_⟩
      simp only [if_true]
      constructor
      · intro h; cases h
      · rintro ⟨h1, h2⟩; exact absurd h1.symm h2
    · refine ⟨by simp [hq], fun p => ?_⟩
      simp only [hq, if_false]
      constructor
      · intro h
        injection h with h
        subst h
        exact ⟨rfl, hq⟩
      · rintro ⟨h1, _⟩
        rw [h1]
  obtain ⟨sse2, sse42, avx2, msc, bits⟩ := b
  refine ⟨?_, ?_, ?_, ?_, ?_, key _ _, key _ _⟩
  · intro h1 h2 h3
    cases sse2 <;> cases sse42 <;> cases avx2 <;> cases msc <;> simp at h1 h2 h3 <;>
      exact ⟨key _ _, key _ _⟩
  · intro h1 h2
    cases sse2 <;> cases sse42 <;> cases avx2 <;> cases msc <;> simp at h1 h2 <;>
      exact ⟨key _ _, key _ _⟩
  · intro h1 h2
    cases sse2 <;> cases sse42 <;> cases avx2 <;> cases msc <;> simp at h1 h2 <;>
      exact ⟨key _ _, key _ _⟩
  · intro h1 h2 h3
    cases sse2 <;> cases sse42 <;> cases avx2 <;> cases msc <;> simp at h1 h2 h3 <;>
      exact ⟨key _ _, key _ _⟩
  · intro h1 h2 h3
    cases sse2 <;> cases sse42 <;> cases avx2 <;> cases msc <;> simp at h1 h2 h3 <;>
      exact ⟨key _ _, key _ _⟩

/-- C16 at a concrete build and runtime: in a `BMSSE2OPT` build with a 64-bit `size_t`,
where `_mm_malloc(32, 16)` answers 512 and `malloc` answers null, `block_allocator`
returns 512 for 8 words and the `libbm` pointer allocator raises `BM_ERR_BADALLOC`. -/
theorem allocate_success_or_throw_witness :
    block_allocator.allocate ⟨true, false, false, false, 64⟩
        ⟨fun _ => 0, fun size align => size * align, fun _ _ => 0⟩ 8 = .ok 512 ∧
      libbm.ptr_allocator.allocate ⟨true, false, false, false, 64⟩
        ⟨fun _ => 0, fun size align => size * align, fun _ _ => 0⟩ 8
          = .error .BM_ERR_BADALLOC :=
  ⟨((((allocate_success_or_throw ⟨true, false, false, false, 64⟩
      ⟨fun _ => 0, fun size align => size * align, fun _ _ => 0⟩ 8).2.2.2.1
        rfl (Or.inl rfl) rfl).1).2 512).mpr ⟨by decide, by decide⟩,
    ((allocate_success_or_throw ⟨true, false, false, false, 64⟩
      ⟨fun _ => 0, fun size align => size * align, fun _ _ => 0⟩ 8).2.2.2.2.2.2).1.mpr rfl⟩

/-- C17. Freeing a null pointer block is a no-op.  For every pointer allocator (`deallocate`
is its member function, acting on the allocator object), every adapter and every size,
`free_ptr(null, size)` leaves the adapter, its pointer allocator included, as it was: no
`deallocate` has taken place.  For a non-null `p` the adapter afterwards is the one whose
pointer allocator went through the single call `deallocate(p, size)`; an allocator that
records its calls has recorded exactly that one call after those it had before. -/
theorem free_ptr_null_noop {BA PA : Type} (deallocate : PA → Nat → Nat → PA)
    (m : mem_alloc BA PA) (calls : mem_alloc BA (List (Nat × Nat))) (p size : Nat)
    (hp : p ≠ 0) :
    mem_alloc.free_ptr deallocate m 0 size = m ∧
    mem_alloc.free_ptr deallocate m p size
      = { m with ptr_alloc_ := deallocate m.ptr_alloc_ p size } ∧
    mem_alloc.free_ptr (fun log q n => log ++ [(q, n)]) calls 0 size = calls ∧
    (mem_alloc.free_ptr (fun log q n => log ++ [(q, n)]) calls p size).ptr_alloc_
      = calls.ptr_alloc_ ++ [(p, size)] ∧
    (mem_alloc.free_ptr (fun log q n => log ++ [(q, n)]) calls p size).block_alloc_
      = calls.block_alloc_ := by
  refine ⟨?_, ?_, ?_, ?_, ?_⟩
  · simp [mem_alloc.free_ptr]
  · simp [mem_alloc.free_ptr, hp]
  · simp [mem_alloc.free_ptr]
  · simp [mem_alloc.free_ptr, hp]
  · simp [mem_alloc.free_ptr, hp]

/-- Witness for C17: an adapter whose pointer allocator adds up the sizes it was given
back, and a recording one. -/
theorem free_ptr_null_noop_witness :
    mem_alloc.free_ptr (fun (a : Nat) _ n => a + n) (⟨7, 0⟩ : mem_alloc Nat Nat) 0 256
      = ⟨7, 0⟩ ∧
    mem_alloc.free_ptr (fun (a : Nat) _ n => a + n) (⟨7, 0⟩ : mem_alloc Nat Nat) 4096 256
      = { (⟨7, 0⟩ : mem_alloc Nat Nat) with
          ptr_alloc_ := (fun (a : Nat) _ n => a + n) (⟨7, 0⟩ : mem_alloc Nat Nat).ptr_alloc_
            4096 256 } ∧
    mem_alloc.free_ptr (fun log q n => log ++ [(q, n)])
      (⟨7, [(64, 256)]⟩ : mem_alloc Nat (List (Nat × Nat))) 0 256 = ⟨7, [(64, 256)]⟩ ∧
    (mem_alloc.free_ptr (fun log q n => log ++ [(q, n)])
      (⟨7, [(64, 256)]⟩ : mem_alloc Nat (List (Nat × Nat))) 4096 256).ptr_alloc_
      = (⟨7, [(64, 256)]⟩ : mem_alloc Nat (List (Nat × Nat))).ptr_alloc_ ++ [(4096, 256)] ∧
    (mem_alloc.free_ptr (fun log q n => log ++ [(q, n)])
      (⟨7, [(64, 256)]⟩ : mem_alloc Nat (List (Nat × Nat))) 4096 256).block_alloc_
      = (⟨7, [(64, 256)]⟩ : mem_alloc Nat (List (Nat × Nat))).block_alloc_ :=
  free_ptr_null_noop (fun (a : Nat) _ n => a + n) (⟨7, 0⟩ : mem_alloc Nat Nat)
    (⟨7, [(64, 256)]⟩ : mem_alloc Nat (List (Nat × Nat))) 4096 256 (by decide)

/-- C18. GAP alloc/free size symmetry.  For every level-length table of 16-bit entries,
every level `L` in range and every block allocator: when `gap_capacity(block, table)`
reports `table[L]`, `free_gap_block(block, table)` passes to `deallocate` the word count
`table[L] / 2`, the very count that `alloc_gap_block(L, table)` passes to `allocate`. -/
theorem gap_alloc_free_symmetry {BA PA R : Type} (allocate : BA → Nat → R)
    (deallocate : BA → Nat → Nat → BA) (m : mem_alloc BA PA) (glevel_len : List Nat)
    (L block capacity : Nat) (hL : L < glevel_len.length)
    (h16 : ∀ x ∈ glevel_len, x < 2 ^ 16) (hcap : capacity = glevel_len.getD L 0) :
    alloc_gap_block_len L glevel_len = .ok (free_gap_block_len capacity) ∧
    mem_alloc.alloc_gap_block allocate m L glevel_len
      = .ok (allocate m.block_alloc_ (glevel_len.getD L 0 / 2)) ∧
    mem_alloc.free_gap_block deallocate m block capacity
      = { m with block_alloc_ := deallocate m.block_alloc_ block (glevel_len.getD L 0 / 2) } := by
  have hx := getD_lt_of_forall_mem h16 (by norm_num) L
  have e16 : (2 : Nat) ^ 16 = 65536 := by norm_num
  have e32 : (2 : Nat) ^ 32 = 4294967296 := by norm_num
  have h2 : sizeof_word_t / sizeof_gap_word_t = 2 := by decide
  have ha : alloc_gap_block_len L glevel_len = .ok (glevel_len.getD L 0 / 2) := by
    simp only [alloc_gap_block_len, hL, if_true, h2]
    congr 1
    apply Nat.mod_eq_of_lt
    omega
  have hf : free_gap_block_len capacity = glevel_len.getD L 0 / 2 := by
    subst hcap
    simp only [free_gap_block_len, h2]
    rw [Nat.mod_eq_of_lt (by omega : glevel_len.getD L 0 < 2 ^ 32),
      Nat.mod_eq_of_lt (by omega : 2 < 2 ^ 32)]
  refine ⟨by rw [ha, hf], ?_, ?_⟩
  · simp only [mem_alloc.alloc_gap_block, ha]
    rfl
  · simp only [mem_alloc.free_gap_block, hf]

/-- Witness for C18: level 3 of a four-level table, with an allocator that records the
counts it is asked for and given back. -/
theorem gap_alloc_free_symmetry_witness :
    alloc_gap_block_len 3 [128, 256, 512, 1280] = .ok (free_gap_block_len 1280) ∧
    mem_alloc.alloc_gap_block (fun (log : List Nat) n => log ++ [n])
        (⟨[], 0⟩ : mem_alloc (List Nat) Nat) 3 [128, 256, 512, 1280]
      = .ok ((fun (log : List Nat) n => log ++ [n])
          (⟨[], 0⟩ : mem_alloc (List Nat) Nat).block_alloc_
          ([128, 256, 512, 1280].getD 3 0 / 2)) ∧
    mem_alloc.free_gap_block (fun (log : List Nat) _ n => log ++ [n])
        (⟨[], 0⟩ : mem_alloc (List Nat) Nat) 4096 1280
      = { (⟨[], 0⟩ : mem_alloc (List Nat) Nat) with
          block_alloc_ := (fun (log : List Nat) _ n => log ++ [n])
            (⟨[], 0⟩ : mem_alloc (List Nat) Nat).block_alloc_ 4096
            ([128, 256, 512, 1280].getD 3 0 / 2) } :=
  gap_alloc_free_symmetry (fun (log : List Nat) n => log ++ [n])
    (fun (log : List Nat) _ n => log ++ [n]) (⟨[], 0⟩ : mem_alloc (List Nat) Nat)
    [128, 256, 512, 1280] 3 4096 1280 (by decide) (by decide) (by decide)

/-- C19 (amended). Bit-block sizing.  Whatever the width `prod_bits ≥ 32` of the type the
product is computed in, for every `alloc_factor < 2^21`, every block allocator and every
adapter, `alloc_bit_block(alloc_factor)` asks the block allocator for exactly
`set_block_size * alloc_factor` words, with `set_block_size = 2048` words of 32 bits, and
`free_bit_block` with the same `alloc_factor` gives back the same count; with the default
`alloc_factor = 1` the request is one block of 2048 words.  For every `alloc_factor`, also
a larger one, the two functions compute the same count. -/
theorem bit_block_sizing {BA PA R : Type} (allocate : BA → Nat → R)
    (deallocate : BA → Nat → Nat → BA) (m : mem_alloc BA PA) (prod_bits alloc_factor : Nat)
    (block af : Nat) (hbits : 32 ≤ prod_bits) (hfit : alloc_factor < 2 ^ 21) :
    mem_alloc.alloc_bit_block allocate prod_bits m alloc_factor
      = allocate m.block_alloc_ (set_block_size * alloc_factor) ∧
    mem_alloc.free_bit_block deallocate prod_bits m block alloc_factor
      = { m with block_alloc_ := deallocate m.block_alloc_ block (set_block_size * alloc_factor) } ∧
    mem_alloc.alloc_bit_block allocate prod_bits m 1 = allocate m.block_alloc_ 2048 ∧
    set_block_size * 32 = 2 ^ 16 ∧
    (∃ n, mem_alloc.alloc_bit_block allocate prod_bits m af = allocate m.block_alloc_ n ∧
      mem_alloc.free_bit_block deallocate prod_bits m block af
        = { m with block_alloc_ := deallocate m.block_alloc_ block n } ∧
      n = set_block_size * (af % 2 ^ 32) % 2 ^ prod_bits) := by
  have hpow : (2 : Nat) ^ 32 ≤ 2 ^ prod_bits := Nat.pow_le_pow_right (by norm_num) hbits
  have e21 : (2 : Nat) ^ 21 = 2097152 := by norm_num
  have e32 : (2 : Nat) ^ 32 = 4294967296 := by norm_num
  have hlen : ∀ a, a < 2 ^ 21 → bit_block_len prod_bits a = set_block_size * a := by
    intro a ha
    have hs : set_block_size = 2048 := rfl
    unfold bit_block_len
    rw [Nat.mod_eq_of_lt (by omega : a < 2 ^ 32), Nat.mod_eq_of_lt]
    rw [hs]
    omega
  refine ⟨?_, ?_, ?_, by decide, ⟨_, rfl, rfl, rfl⟩⟩
  · simp only [mem_alloc.alloc_bit_block, hlen alloc_factor hfit]
  · simp only [mem_alloc.free_bit_block, hlen alloc_factor hfit]
  · simp only [mem_alloc.alloc_bit_block, hlen 1 (by norm_num)]
    rfl

/-- Witness for C19 (amended): three blocks, 32-bit product, an allocator that records
the counts. -/
theorem bit_block_sizing_witness :
    mem_alloc.alloc_bit_block (fun (log : List Nat) n => log ++ [n]) 32
        (⟨[], 0⟩ : mem_alloc (List Nat) Nat) 3
      = (fun (log : List Nat) n => log ++ [n])
          (⟨[], 0⟩ : mem_alloc (List Nat) Nat).block_alloc_ (set_block_size * 3) ∧
    mem_alloc.free_bit_block (fun (log : List Nat) _ n => log ++ [n]) 32
        (⟨[], 0⟩ : mem_alloc (List Nat) Nat) 4096 3
      = { (⟨[], 0⟩ : mem_alloc (List Nat) Nat) with
          block_alloc_ := (fun (log : List Nat) _ n => log ++ [n])
            (⟨[], 0⟩ : mem_alloc (List Nat) Nat).block_alloc_ 4096 (set_block_size * 3) } ∧
    mem_alloc.alloc_bit_block (fun (log : List Nat) n => log ++ [n]) 32
        (⟨[], 0⟩ : mem_alloc (List Nat) Nat) 1
      = (fun (log : List Nat) n => log ++ [n])
          (⟨[], 0⟩ : mem_alloc (List Nat) Nat).block_alloc_ 2048 ∧
    set_block_size * 32 = 2 ^ 16 ∧
    (∃ n, mem_alloc.alloc_bit_block (fun (log : List Nat) n => log ++ [n]) 32
          (⟨[], 0⟩ : mem_alloc (List Nat) Nat) 2097153
        = (fun (log : List Nat) n => log ++ [n])
            (⟨[], 0⟩ : mem_alloc (List Nat) Nat).block_alloc_ n ∧
      mem_alloc.free_bit_block (fun (log : List Nat) _ n => log ++ [n]) 32
          (⟨[], 0⟩ : mem_alloc (List Nat) Nat) 4096 2097153
        = { (⟨[], 0⟩ : mem_alloc (List Nat) Nat) with
            block_alloc_ := (fun (log : List Nat) _ n => log ++ [n])
              (⟨[], 0⟩ : mem_alloc (List Nat) Nat).block_alloc_ 4096 n } ∧
      n = set_block_size * (2097153 % 2 ^ 32) % 2 ^ 32) :=
  bit_block_sizing (fun (log : List Nat) n => log ++ [n])
    (fun (log : List Nat) _ n => log ++ [n]) (⟨[], 0⟩ : mem_alloc (List Nat) Nat)
    32 3 4096 2097153 (by decide) (by decide)

/-- C19 as stated fails when the product does not fit 32 bits: with `set_block_size` an
`unsigned` constant the product is an `unsigned`, and for `alloc_factor = 2^21` the
adapter asks the block allocator for 0 words, while `2048 * 2^21 = 2^32`. -/
theorem bit_block_sizing_counterexample :
    mem_alloc.alloc_bit_block (fun (_ : Nat) n => n) 32 (⟨0, 0⟩ : mem_alloc Nat Nat) 2097152 = 0 ∧
    set_block_size * 2097152 = 4294967296 ∧ 2097152 < 2 ^ 32 := by
  decide

/-- C20: the code hands out the wrong allocator.  For an adapter built from the block
allocator `1` and the pointer allocator `2` of one and the same allocator class, whose
copy constructor is the identity, `get_ptr_allocator()` returns a copy of the block
allocator `1`, not of the pointer allocator `2`; `get_block_allocator()` returns a copy of
the block allocator. -/
theorem get_ptr_allocator_returns_block_alloc :
    mem_alloc.get_ptr_allocator id (⟨1, 2⟩ : mem_alloc Nat Nat) = 1 ∧
    mem_alloc.get_ptr_allocator id (⟨1, 2⟩ : mem_alloc Nat Nat)
      ≠ (⟨1, 2⟩ : mem_alloc Nat Nat).ptr_alloc_ ∧
    mem_alloc.get_block_allocator id (⟨1, 2⟩ : mem_alloc Nat Nat)
      = (⟨1, 2⟩ : mem_alloc Nat Nat).block_alloc_ := by
  decide

/-! ## Kernels called with an empty range -/

theorem set_block_short_fault (M : List Nat) (q value : Nat) (h : M.length < q + 4) :
    sse2_set_block M q q value = .error .out_of_bounds := by
  have h1 : ¬ (q + 4 ≤ M.length) := by omega
  simp only [sse2_set_block, Nat.sub_self, Nat.zero_add, sse2_set_block_loop,
    _mm_store_si128, h1, if_false]
  rfl

theorem invert_arr_short_fault (M : List Nat) (q : Nat) (h : M.length < q + 4) :
    sse2_invert_arr M q q = .error .out_of_bounds := by
  have h1 : ¬ (q + 4 ≤ M.length) := by omega
  simp only [sse2_invert_arr, Nat.sub_self, Nat.zero_add, sse2_invert_arr_loop,
    _mm_load_si128, h1, if_false]
  rfl

theorem set_block_misaligned_fault (M : List Nat) (q e value : Nat)
    (h : q + 4 ≤ M.length) (ha : q % 4 ≠ 0) :
    sse2_set_block M q e value = .error .misaligned := by
  simp only [sse2_set_block, sse2_set_block_loop, _mm_store_si128, h, ha, if_true, if_false]
  rfl

theorem invert_arr_misaligned_fault (M : List Nat) (q e : Nat)
    (h : q + 4 ≤ M.length) (ha : q % 4 ≠ 0) :
    sse2_invert_arr M q e = .error .misaligned := by
  simp only [sse2_invert_arr, sse2_invert_arr_loop, _mm_load_si128, h, ha, if_true, if_false]
  rfl

/-- C22 (amended). A kernel called with an empty range (`start = end = p`, `p` on a lane
boundary) still runs the body of its `do ... while` loop once.  On a buffer `D` that holds
the four words `p .. p+3`, `sse2_set_block(dst, dst, value)` writes `value` to these four
words and `sse2_invert_arr(first, first)` inverts them; with a source `S` that holds them
too, the two mask kernels write four words.  On buffers `D16`, `S16` that hold 16 words from
`p` on, `sse2_and_arr`, `sse2_or_arr`, `sse2_xor_arr` and `sse2_sub_arr` combine 16 words, and
on buffers `D32`, `S32` that hold 32 words `sse2_copy_block` copies 32 words.  Every other
word of the destination is unchanged and the source is unchanged (`Upd f D S a b D'` says
that `D'` is `D` with the words `a ≤ i < b` replaced by `f S[i] D[i]`).  On a buffer with
fewer than four words from `p` on, `sse2_set_block` and `sse2_invert_arr` run out of the
buffer, and at an offset that is not on a lane boundary they fault on the aligned access.
Only `sse2_gap_sum_arr`, whose loop is a `for` loop, reads nothing with zero waves and
returns pointer and sum as they were. -/
theorem empty_range_runs_body_once (D S D16 S16 D32 S32 : List Nat) (p value mask sum : Nat)
    (hp : p % 4 = 0) (hD : p + 4 ≤ D.length) (hS : p + 4 ≤ S.length)
    (hD16 : p + 16 ≤ D16.length) (hS16 : p + 16 ≤ S16.length)
    (hD32 : p + 32 ≤ D32.length) (hS32 : p + 32 ≤ S32.length)
    (hv : value < 2 ^ 32) (hm : mask < 2 ^ 32) (hsum : sum < 2 ^ 32) :
    (∃ D', sse2_set_block D p p value = .ok D' ∧ Upd (fun _ _ => value) D [] p (p + 4) D') ∧
    (∃ D', sse2_invert_arr D p p = .ok D' ∧
      Upd (fun _ d => d ^^^ 0xFFFFFFFF) D [] p (p + 4) D') ∧
    (∃ D', sse2_xor_arr_2_mask D S p p p mask = .ok (D', S) ∧
      Upd (fun s _ => s ^^^ mask) D S p (p + 4) D') ∧
    (∃ D', sse2_andnot_arr_2_mask D S p p p mask = .ok (D', S) ∧
      Upd (fun s _ => lane_not s &&& mask) D S p (p + 4) D') ∧
    (∃ D', sse2_and_arr D16 S16 p p p = .ok (D', S16) ∧
      Upd (fun s d => s &&& d) D16 S16 p (p + 16) D') ∧
    (∃ D', sse2_or_arr D16 S16 p p p = .ok (D', S16) ∧
      Upd (fun s d => s ||| d) D16 S16 p (p + 16) D') ∧
    (∃ D', sse2_xor_arr D16 S16 p p p = .ok (D', S16) ∧
      Upd (fun s d => s ^^^ d) D16 S16 p (p + 16) D') ∧
    (∃ D', sse2_sub_arr D16 S16 p p p = .ok (D', S16) ∧
      Upd (fun s d => lane_not s &&& d) D16 S16 p (p + 16) D') ∧
    (∃ D', sse2_copy_block D32 S32 p p p = .ok (D', S32) ∧
      Upd (fun s _ => s) D32 S32 p (p + 32) D') ∧
    (∀ (M : List Nat) (q : Nat), M.length < q + 4 →
      sse2_set_block M q q value = .error .out_of_bounds ∧
      sse2_invert_arr M q q = .error .out_of_bounds) ∧
    (∀ (M : List Nat) (q : Nat), q + 4 ≤ M.length → q % 4 ≠ 0 →
      sse2_set_block M q q value = .error .misaligned ∧
      sse2_invert_arr M q q = .error .misaligned) ∧
    (∀ (b : List Nat) (q : Nat), sse2_gap_sum_arr b q 0 sum = .ok (q, sum)) := by
  have hvm : value % 2 ^ 32 = value := Nat.mod_eq_of_lt hv
  have hmm : mask % 2 ^ 32 = mask := Nat.mod_eq_of_lt hm
  refine ⟨?_, ?_, ?_, ?_, ?_, ?_, ?_, ?_, ?_, ?_, ?_, ?_⟩
  · obtain ⟨D', e, u⟩ := set_loop_spec (value % 2 ^ 32) 0 (p - p + 1) D p p
      (by omega) (by omega) (by omega) (Or.inl rfl) hp
    rw [hvm] at u
    exact ⟨D', e, by simpa using u⟩
  · obtain ⟨D', e, u⟩ := invert_loop_spec 0xFFFFFFFF 0 (p - p + 1) D p p
      (by omega) (by omega) (by omega) (Or.inl rfl) hp
    exact ⟨D', e, by simpa using u⟩
  · obtain ⟨D', e, u⟩ := mask_loop_spec (fun s m => s ^^^ m) (mask % 2 ^ 32) 0 (p - p + 1)
      D S p p (by omega) (by omega) (by omega) (by omega) (Or.inl rfl) hp
    rw [hmm] at u
    refine ⟨D', ?_, by simpa using u⟩
    rw [sse2_xor_arr_2_mask, sse2_xor_arr_2_mask_loop_eq]
    exact e
  · obtain ⟨D', e, u⟩ := mask_loop_spec (fun s m => lane_not s &&& m) (mask % 2 ^ 32) 0
      (p - p + 1) D S p p (by omega) (by omega) (by omega) (by omega) (Or.inl rfl) hp
    rw [hmm] at u
    refine ⟨D', ?_, by simpa using u⟩
    rw [sse2_andnot_arr_2_mask, sse2_andnot_arr_2_mask_loop_eq]
    exact e
  · obtain ⟨D', e, u⟩ := binop_loop_spec (fun s d => s &&& d) 0 (p - p + 1) D16 S16 p p
      (by omega) (by omega) (by omega) (by omega) (Or.inl rfl) hp
    refine ⟨D', ?_, by simpa using u⟩
    rw [sse2_and_arr, sse2_and_arr_loop_eq]
    exact e
  · obtain ⟨D', e, u⟩ := binop_loop_spec (fun s d => s ||| d) 0 (p - p + 1) D16 S16 p p
      (by omega) (by omega) (by omega) (by omega) (Or.inl rfl) hp
    refine ⟨D', ?_, by simpa using u⟩
    rw [sse2_or_arr, sse2_or_arr_loop_eq]
    exact e
  · obtain ⟨D', e, u⟩ := binop_loop_spec (fun s d => s ^^^ d) 0 (p - p + 1) D16 S16 p p
      (by omega) (by omega) (by omega) (by omega) (Or.inl rfl) hp
    refine ⟨D', ?_, by simpa using u⟩
    rw [sse2_xor_arr, sse2_xor_arr_loop_eq]
    exact e
  · obtain ⟨D', e, u⟩ := binop_loop_spec (fun s d => lane_not s &&& d) 0 (p - p + 1)
      D16 S16 p p (by omega) (by omega) (by omega) (by omega) (Or.inl rfl) hp
    refine ⟨D', ?_, by simpa using u⟩
    rw [sse2_sub_arr, sse2_sub_arr_loop_eq]
    exact e
  · obtain ⟨D', e, u⟩ := copy_loop_spec 0 (p - p + 1) D32 S32 p p
      (by omega) (by omega) (by omega) (by omega) (Or.inl rfl) hp
    exact ⟨D', e, by simpa using u⟩
  · intro M q h
    exact ⟨set_block_short_fault M q value h, invert_arr_short_fault M q h⟩
  · intro M q h ha
    exact ⟨set_block_misaligned_fault M q q value h ha, invert_arr_misaligned_fault M q q h ha⟩
  · intro b q
    exact gap_kernel_no_wave b q sum hsum

/-- Witness for C22 (amended): the second lane of eight-word buffers for the one-lane
kernels, 16-word and 32-word buffers for the others, each just long enough. -/
theorem empty_range_runs_body_once_witness :
    (∃ D', sse2_set_block (List.range 8) 4 4 9 = .ok D' ∧
      Upd (fun _ _ => 9) (List.range 8) [] 4 (4 + 4) D') ∧
    (∃ D', sse2_invert_arr (List.range 8) 4 4 = .ok D' ∧
      Upd (fun _ d => d ^^^ 0xFFFFFFFF) (List.range 8) [] 4 (4 + 4) D') ∧
    (∃ D', sse2_xor_arr_2_mask (List.range 8) (List.replicate 8 3) 4 4 4 255
        = .ok (D', List.replicate 8 3) ∧
      Upd (fun s _ => s ^^^ 255) (List.range 8) (List.replicate 8 3) 4 (4 + 4) D') ∧
    (∃ D', sse2_andnot_arr_2_mask (List.range 8) (List.replicate 8 3) 4 4 4 255
        = .ok (D', List.replicate 8 3) ∧
      Upd (fun s _ => lane_not s &&& 255) (List.range 8) (List.replicate 8 3) 4 (4 + 4) D') ∧
    (∃ D', sse2_and_arr (List.replicate 20 7) (List.range 20) 4 4 4
        = .ok (D', List.range 20) ∧
      Upd (fun s d => s &&& d) (List.replicate 20 7) (List.range 20) 4 (4 + 16) D') ∧
    (∃ D', sse2_or_arr (List.replicate 20 7) (List.range 20) 4 4 4
        = .ok (D', List.range 20) ∧
      Upd (fun s d => s ||| d) (List.replicate 20 7) (List.range 20) 4 (4 + 16) D') ∧
    (∃ D', sse2_xor_arr (List.replicate 20 7) (List.range 20) 4 4 4
        = .ok (D', List.range 20) ∧
      Upd (fun s d => s ^^^ d) (List.replicate 20 7) (List.range 20) 4 (4 + 16) D') ∧
    (∃ D', sse2_sub_arr (List.replicate 20 7) (List.range 20) 4 4 4
        = .ok (D', List.range 20) ∧
      Upd (fun s d => lane_not s &&& d) (List.replicate 20 7) (List.range 20) 4 (4 + 16) D') ∧
    (∃ D', sse2_copy_block (List.replicate 36 7) (List.range 36) 4 4 4
        = .ok (D', List.range 36) ∧
      Upd (fun s _ => s) (List.replicate 36 7) (List.range 36) 4 (4 + 32) D') ∧
    (∀ (M : List Nat) (q : Nat), M.length < q + 4 →
      sse2_set_block M q q 9 = .error .out_of_bounds ∧
      sse2_invert_arr M q q = .error .out_of_bounds) ∧
    (∀ (M : List Nat) (q : Nat), q + 4 ≤ M.length → q % 4 ≠ 0 →
      sse2_set_block M q q 9 = .error .misaligned ∧
      sse2_invert_arr M q q = .error .misaligned) ∧
    (∀ (b : List Nat) (q : Nat), sse2_gap_sum_arr b q 0 5 = .ok (q, 5)) :=
  empty_range_runs_body_once (List.range 8) (List.replicate 8 3) (List.replicate 20 7)
    (List.range 20) (List.replicate 36 7) (List.range 36) 4 9 255 5 (by decide) (by decide)
    (by decide) (by decide) (by decide) (by decide) (by decide) (by decide) (by decide)
    (by decide)

/-- C22 as stated fails: with an empty range `sse2_set_block(dst, dst, 9)` overwrites the
first four words of the destination and `sse2_invert_arr(first, first)` inverts them;
on a buffer with no word at `dst` both run out of it. -/
theorem empty_range_counterexample :
    sse2_set_block [1, 2, 3, 4, 5] 0 0 9 = .ok [9, 9, 9, 9, 5] ∧
    sse2_invert_arr [1, 2, 3, 4, 5] 0 0
      = .ok [4294967294, 4294967293, 4294967292, 4294967291, 5] ∧
    sse2_set_block [] 0 0 9 = .error .out_of_bounds ∧
    sse2_invert_arr [] 0 0 = .error .out_of_bounds := by
  decide

/-! ## `sse2_gap_sum_arr` over consecutive calls -/

/-- On 16-bit non-decreasing entries what the kernel adds to `*sum` is the sum of the run
lengths: no difference of lane totals wraps around `2^16`. -/
theorem gap_fold_exact (p : List Nat) (s w : Nat) (hs : 1 ≤ s) (h16 : ∀ x ∈ p, x < 2 ^ 16)
    (hmono : ∀ i j, s ≤ i + 1 → i ≤ j → j + 2 ≤ s + 16 * w → p.getD i 0 ≤ p.getD j 0) :
    gap_fold p w (s - 1) = gap_run_sum p s (8 * w) := by
  obtain ⟨i0, i1, i2, i3, it⟩ := lane_total_pairs p w (s - 1)
    (fun i h1 h2 => hmono i (i + 1) (by omega) (by omega) (by omega))
  have es : s - 1 + 1 = s := by omega
  rw [es] at it
  have hb : gap_run_sum p s (8 * w) < 65536 := by
    rcases Nat.eq_zero_or_pos w with h0 | hpos
    · subst h0
      simp [gap_run_sum_zero]
    · obtain ⟨r, hr⟩ : ∃ r, 8 * w = r + 1 := ⟨8 * w - 1, by omega⟩
      have h := gap_run_sum_le p s hs r
        (fun i h1 h2 => hmono i (i + 1) (by omega) (by omega) (by omega))
      have hlast := getD_lt_of_forall_mem h16 (by norm_num) (s + 2 * r)
      have e16 : (2 : Nat) ^ 16 = 65536 := by norm_num
      rw [e16] at hlast
      rw [hr]
      omega
  unfold gap_fold
  rw [sub_mod_exact _ _ i0 (by omega), sub_mod_exact _ _ i1 (by omega),
    sub_mod_exact _ _ i2 (by omega), sub_mod_exact _ _ i3 (by omega)]
  exact it

/-- C23. `sse2_gap_sum_arr` composes over waves.  Let `p` be an array of 16-bit entries,
`pbuf = &p[s]` with `s ≥ 1`, and `w1`, `w2` wave counts such that the entries
`s-1 .. s+16(w1+w2)-2` exist and are non-decreasing.  Running the kernel for `w1` waves
and then for `w2` waves from the pointer and with the sum the first call returned gives
the same pointer and the same `*sum` as one call with `w1 + w2` waves, and that call
returns normally with the pointer `s + 16 (w1 + w2)`. -/
theorem sse2_gap_sum_arr_compose (p : List Nat) (s w1 w2 sum : Nat) (hs : 1 ≤ s)
    (hlen : s + 16 * (w1 + w2) ≤ p.length + 1) (h16 : ∀ x ∈ p, x < 2 ^ 16)
    (hmono : ∀ i j, s ≤ i + 1 → i ≤ j → j + 2 ≤ s + 16 * (w1 + w2) →
      p.getD i 0 ≤ p.getD j 0) :
    (sse2_gap_sum_arr p s w1 sum >>= fun r => sse2_gap_sum_arr p r.1 w2 r.2)
        = sse2_gap_sum_arr p s (w1 + w2) sum ∧
      sse2_gap_sum_arr p s (w1 + w2) sum
        = .ok (s + 16 * (w1 + w2), (sum + gap_run_sum p s (8 * (w1 + w2))) % 2 ^ 32) := by
  have f1 := gap_fold_exact p s w1 hs h16 (fun i j h1 h2 h3 => hmono i j h1 h2 (by omega))
  have f2 := gap_fold_exact p (s + 16 * w1) w2 (by omega) h16
    (fun i j h1 h2 h3 => hmono i j (by omega) h2 (by omega))
  have f12 := gap_fold_exact p s (w1 + w2) hs h16 hmono
  have k1 := gap_kernel_formula p s w1 sum hs (by omega)
  have k2 := gap_kernel_formula p (s + 16 * w1) w2 ((sum + gap_fold p w1 (s - 1)) % 2 ^ 32)
    (by omega) (by omega)
  have k12 := gap_kernel_formula p s (w1 + w2) sum hs hlen
  have hadd : gap_run_sum p s (8 * (w1 + w2))
      = gap_run_sum p s (8 * w1) + gap_run_sum p (s + 16 * w1) (8 * w2) := by
    have e1 : 8 * (w1 + w2) = 8 * w1 + 8 * w2 := by omega
    have e2 : s + 2 * (8 * w1) = s + 16 * w1 := by omega
    rw [e1, gap_run_sum_add, e2]
  rw [f12] at k12
  refine ⟨?_, k12⟩
  rw [k1, ok_bind]
  show sse2_gap_sum_arr p (s + 16 * w1) w2 ((sum + gap_fold p w1 (s - 1)) % 2 ^ 32) = _
  rw [k2, k12, f1, f2, hadd]
  have e32 : (2 : Nat) ^ 32 = 4294967296 := by norm_num
  have ep : s + 16 * w1 + 16 * w2 = s + 16 * (w1 + w2) := by omega
  rw [e32, ep]
  congr 2
  omega

/-- Witness for C23: 32 entries `60000 .. 60031`, one wave and then one more. -/
theorem sse2_gap_sum_arr_compose_witness :
    (sse2_gap_sum_arr ((List.range 32).map (· + 60000)) 1 1 5
        >>= fun r => sse2_gap_sum_arr ((List.range 32).map (· + 60000)) r.1 1 r.2)
        = sse2_gap_sum_arr ((List.range 32).map (· + 60000)) 1 (1 + 1) 5 ∧
      sse2_gap_sum_arr ((List.range 32).map (· + 60000)) 1 (1 + 1) 5
        = .ok (1 + 16 * (1 + 1),
            (5 + gap_run_sum ((List.range 32).map (· + 60000)) 1 (8 * (1 + 1))) % 2 ^ 32) :=
  sse2_gap_sum_arr_compose ((List.range 32).map (· + 60000)) 1 1 1 5 (by decide) (by decide)
    (by decide)
    (by
      intro i j _ hij hj
      have hi : i < 32 := by omega
      have hj' : j < 32 := by omega
      rw [List.getD_eq_getElem _ _ (by simpa using hi),
        List.getD_eq_getElem _ _ (by simpa using hj')]
      simp only [List.getElem_map, List.getElem_range]
      omega)

/-! ## SUB as AND with the inverted source -/

/-- C24. SUB is AND with the inverted source.  For arrays `dst`, `src` of 32-bit words and
of equal length `n`, `n` a positive multiple of 16: `sse2_invert_arr` applied to a copy of
`src` gives `src'`, and `sse2_sub_arr(dst, src)` leaves in `dst` exactly what
`sse2_and_arr(dst, src')` leaves there.  Every 128-bit lane of the result is the helper
`sse2_sub(dst_lane, src_lane)`, which is `dst_lane & ~src_lane` word by word, the 32-bit
complement `~x` being `0xFFFFFFFF - x`. -/
theorem sub_is_and_with_inverted (dst src : List Nat) (n : Nat) (hn : 0 < n)
    (h16 : n % 16 = 0) (hd : dst.length = n) (hs : src.length = n)
    (hw : ∀ x ∈ src, x < 2 ^ 32) :
    ∃ src' r, sse2_invert_arr src 0 n = .ok src' ∧
      sse2_sub_arr dst src 0 0 n = .ok (r, src) ∧
      sse2_and_arr dst src' 0 0 n = .ok (r, src') ∧
      ∀ j, 4 * j + 4 ≤ n → ∃ a b, _mm_load_si128 dst (4 * j) = .ok a ∧
        _mm_load_si128 src (4 * j) = .ok b ∧
        _mm_load_si128 r (4 * j) = .ok (sse2_sub a b) ∧
        sse2_sub a b = ⟨a.w0 &&& (0xFFFFFFFF - b.w0), a.w1 &&& (0xFFFFFFFF - b.w1),
          a.w2 &&& (0xFFFFFFFF - b.w2), a.w3 &&& (0xFFFFFFFF - b.w3)⟩ := by
  obtain ⟨src', es, us⟩ := invert_kernel_spec src 0 n hn (by omega) (by omega) rfl
  rw [Nat.zero_add] at es us
  obtain ⟨r, er, ur⟩ := binop_kernel_spec (fun s d => lane_not s &&& d) dst src n hn h16
    (by omega) (by omega)
  obtain ⟨r2, e2, u2⟩ := binop_kernel_spec (fun s d => s &&& d) dst src' n hn h16
    (by omega) (by rw [us.1]; omega)
  have hlt : ∀ i, src.getD i 0 < 2 ^ 32 := getD_lt_of_forall_mem hw (by norm_num)
  have hrr : r2 = r := by
    apply list_ext_getD (by rw [u2.1, ur.1])
    intro i hi
    rw [u2.1, hd] at hi
    rw [u2.2 i, ur.2 i, if_pos ⟨Nat.zero_le i, hi⟩, if_pos ⟨Nat.zero_le i, hi⟩, us.2 i,
      if_pos ⟨Nat.zero_le i, hi⟩]
    show (src.getD i 0 ^^^ 0xFFFFFFFF) &&& dst.getD i 0 = lane_not (src.getD i 0) &&& dst.getD i 0
    rw [lane_not, Nat.mod_eq_of_lt (hlt i)]
  subst hrr
  refine ⟨src', r2, es, ?_, ?_, fun j hj => ?_⟩
  · rw [sse2_sub_arr, sse2_sub_arr_loop_eq]
    exact er
  · rw [sse2_and_arr, sse2_and_arr_loop_eq]
    exact e2
  · refine ⟨_, _, load_ok dst (4 * j) (by omega) (by omega),
      load_ok src (4 * j) (by omega) (by omega), ?_, ?_⟩
    · rw [load_ok r2 (4 * j) (by rw [ur.1]; omega) (by omega), ur.2 (4 * j), ur.2 (4 * j + 1),
        ur.2 (4 * j + 2), ur.2 (4 * j + 3), if_pos ⟨Nat.zero_le _, by omega⟩,
        if_pos ⟨Nat.zero_le _, by omega⟩, if_pos ⟨Nat.zero_le _, by omega⟩,
        if_pos ⟨Nat.zero_le _, by omega⟩]
      rfl
    · simp only [sse2_sub, _mm_andnot_si128]
      rw [lane_not_eq _ (hlt (4 * j)), lane_not_eq _ (hlt (4 * j + 1)),
        lane_not_eq _ (hlt (4 * j + 2)), lane_not_eq _ (hlt (4 * j + 3)),
        Nat.land_comm _ (dst.getD (4 * j) 0), Nat.land_comm _ (dst.getD (4 * j + 1) 0),
        Nat.land_comm _ (dst.getD (4 * j + 2) 0), Nat.land_comm _ (dst.getD (4 * j + 3) 0)]

/-- Witness for C24 on 16-word arrays. -/
theorem sub_is_and_with_inverted_witness :
    ∃ src' r, sse2_invert_arr (List.replicate 16 5) 0 16 = .ok src' ∧
      sse2_sub_arr (List.range 16) (List.replicate 16 5) 0 0 16
        = .ok (r, List.replicate 16 5) ∧
      sse2_and_arr (List.range 16) src' 0 0 16 = .ok (r, src') ∧
      ∀ j, 4 * j + 4 ≤ 16 → ∃ a b, _mm_load_si128 (List.range 16) (4 * j) = .ok a ∧
        _mm_load_si128 (List.replicate 16 5) (4 * j) = .ok b ∧
        _mm_load_si128 r (4 * j) = .ok (sse2_sub a b) ∧
        sse2_sub a b = ⟨a.w0 &&& (0xFFFFFFFF - b.w0), a.w1 &&& (0xFFFFFFFF - b.w1),
          a.w2 &&& (0xFFFFFFFF - b.w2), a.w3 &&& (0xFFFFFFFF - b.w3)⟩ :=
  sub_is_and_with_inverted (List.range 16) (List.replicate 16 5) 16 (by decide) (by decide)
    (by decide) (by decide) (by decide)

/-! ## Alignment of the blocks -/

/-- C21. Alignment guarantee.  With a runtime whose aligned allocation functions honour
the alignment they are asked for, for every build and every word count `n`,
`block_allocator::allocate` (of `bm` and of `libbm`) either fails with the out-of-memory
failure or returns a non-null address that is a multiple of 16 when the build defines
`BMSSE2OPT` or `BMSSE42OPT` and a multiple of 32 when it defines `BMAVX2OPT`. -/
theorem allocate_alignment (b : Build) (sys : SysAlloc) (n : Nat)
    (hsys : sys.honors_alignment) :
    (block_allocator.allocate b sys n = .error .bad_alloc ∨
      ∃ p, block_allocator.allocate b sys n = .ok p ∧ p ≠ 0 ∧
        ((b.BMSSE2OPT = true ∨ b.BMSSE42OPT = true) → p % 16 = 0) ∧
        (b.BMAVX2OPT = true → p % 32 = 0)) ∧
    (libbm.block_allocator.allocate b sys n = .error .BM_ERR_BADALLOC ∨
      ∃ p, libbm.block_allocator.allocate b sys n = .ok p ∧ p ≠ 0 ∧
        ((b.BMSSE2OPT = true ∨ b.BMSSE42OPT = true) → p % 16 = 0) ∧
        (b.BMAVX2OPT = true → p % 32 = 0)) := by
  have hal : ((b.BMSSE2OPT = true ∨ b.BMSSE42OPT = true) →
        block_allocator.system_ptr b sys n % 16 = 0) ∧
      (b.BMAVX2OPT = true → block_allocator.system_ptr b sys n % 32 = 0) := by
    have h16 := hsys (n * sizeof_word_t % 2 ^ b.size_t_bits) 16
    have h32 := hsys (n * sizeof_word_t % 2 ^ b.size_t_bits) 32
    obtain ⟨sse2, sse42, avx2, msc, bits⟩ := b
    refine ⟨fun h => ?_, fun h => ?_⟩ <;>
      cases sse2 <;> cases sse42 <;> cases avx2 <;> cases msc <;>
      simp only [block_allocator.system_ptr, BM_ALLOC_ALIGN, Bool.false_eq_true, or_self,
        or_false, or_true, false_or, true_or, Bool.or_false, Bool.or_true, Bool.or_self,
        if_true, if_false] at h h16 h32 ⊢ <;>
      omega
  constructor
  · by_cases h0 : block_allocator.system_ptr b sys n = 0
    · left
      simp [block_allocator.allocate, h0]
    · right
      exact ⟨_, by simp [block_allocator.allocate, h0], h0, hal.1, hal.2⟩
  · by_cases h0 : block_allocator.system_ptr b sys n = 0
    · left
      simp [libbm.block_allocator.allocate, h0]
    · right
      exact ⟨_, by simp [libbm.block_allocator.allocate, h0], h0, hal.1, hal.2⟩

/-- Witness for C21: an SSE4.2 build and a runtime whose aligned allocation returns the
64-fold of the alignment. -/
theorem allocate_alignment_witness :
    (block_allocator.allocate ⟨false, true, false, false, 64⟩
        ⟨fun _ => 4100, fun _ align => align * 64, fun _ align => align * 64⟩ 2048
        = .error .bad_alloc ∨
      ∃ p, block_allocator.allocate ⟨false, true, false, false, 64⟩
          ⟨fun _ => 4100, fun _ align => align * 64, fun _ align => align * 64⟩ 2048
          = .ok p ∧ p ≠ 0 ∧
        (((⟨false, true, false, false, 64⟩ : Build).BMSSE2OPT = true ∨
          (⟨false, true, false, false, 64⟩ : Build).BMSSE42OPT = true) → p % 16 = 0) ∧
        ((⟨false, true, false, false, 64⟩ : Build).BMAVX2OPT = true → p % 32 = 0)) ∧
    (libbm.block_allocator.allocate ⟨false, true, false, false, 64⟩
        ⟨fun _ => 4100, fun _ align => align * 64, fun _ align => align * 64⟩ 2048
        = .error .BM_ERR_BADALLOC ∨
      ∃ p, libbm.block_allocator.allocate ⟨false, true, false, false, 64⟩
          ⟨fun _ => 4100, fun _ align => align * 64, fun _ align => align * 64⟩ 2048
          = .ok p ∧ p ≠ 0 ∧
        (((⟨false, true, false, false, 64⟩ : Build).BMSSE2OPT = true ∨
          (⟨false, true, false, false, 64⟩ : Build).BMSSE42OPT = true) → p % 16 = 0) ∧
        ((⟨false, true, false, false, 64⟩ : Build).BMAVX2OPT = true → p % 32 = 0)) :=
  allocate_alignment ⟨false, true, false, false, 64⟩
    ⟨fun _ => 4100, fun _ align => align * 64, fun _ align => align * 64⟩ 2048
    (fun _ align => ⟨Nat.mul_mod_right align 64, Nat.mul_mod_right align 64⟩)

end bm
